import Mathlib

/-!
# CryptoPlugin (drm 1.0 default implementation): buffer registry and `decrypt`

A shallow embedding of `drm/1.0/default/CryptoPlugin.cpp`.

* `mSharedBufferMap` (a `std::map<uint32_t, sp<IMemory>>`) is a key/value list
  with at most one entry per key; only `find`, `operator[]` and assignment
  through `operator[]` are used by the source, so iteration order is never
  observed.
* An `sp<IMemory>` is `Option IMemory`: `none` is `nullptr`.
* Unsigned machine integers are natural numbers; the width of `size_t`
  (`sizeBits`) is a parameter of the build, `uint64_t` arithmetic that the
  source does not check is reduced modulo `2 ^ 64`.
* A pointer is the natural number of its address and has the width of
  `size_t`. The destination pointer, whose offset no check bounds, is computed
  with `pointerAdd`, which wraps at that width; the source pointer is bounded by
  the checked source sum and is the plain sum.
* The legacy plugin, `mapMemory` and `toStatus` are collaborators that are
  passed in.
* `decrypt` returns what the call did: the registry afterwards, the calls made
  to the legacy plugin and the invocations of the completion callback.
-/

namespace CryptoPlugin

/-! ## Data model -/

/-- `Status` of the HAL interface; the codes this file names are constructors,
every other code of the enumeration is `other`. -/
inductive Status where
  | OK
  | ERROR_DRM_CANNOT_HANDLE
  | BAD_VALUE
  | other (code : Nat)
  deriving DecidableEq, Repr

/-- `Mode` of the HAL interface. -/
inductive Mode where
  | UNENCRYPTED
  | AES_CTR
  | AES_CBC_CTS
  | AES_CBC
  deriving DecidableEq, Repr

/-- `android::CryptoPlugin::Mode` of the legacy plugin. -/
inductive LegacyMode where
  | kMode_Unencrypted
  | kMode_AES_CTR
  | kMode_AES_WV
  | kMode_AES_CBC
  deriving DecidableEq, Repr

/-- `Pattern` of the HAL interface. -/
structure Pattern where
  encryptBlocks : Nat
  skipBlocks : Nat
  deriving DecidableEq, Repr

/-- `android::CryptoPlugin::Pattern`. -/
structure LegacyPattern where
  mEncryptBlocks : Nat
  mSkipBlocks : Nat
  deriving DecidableEq, Repr

/-- `SubSample` of the HAL interface (both fields are `uint32_t`). -/
structure SubSample where
  numBytesOfClearData : Nat
  numBytesOfEncryptedData : Nat
  deriving DecidableEq, Repr

/-- `android::CryptoPlugin::SubSample`. -/
structure LegacySubSample where
  mNumBytesOfClearData : Nat
  mNumBytesOfEncryptedData : Nat
  deriving DecidableEq, Repr

/-- `SharedBuffer`: `uint32_t bufferId`, `uint64_t offset`, `uint64_t size`. -/
structure SharedBuffer where
  bufferId : Nat
  offset : Nat
  size : Nat
  deriving DecidableEq, Repr

/-- `BufferType`; a value outside the two enumerators is `invalid`. -/
inductive BufferType where
  | SHARED_MEMORY
  | NATIVE_HANDLE
  | invalid (raw : Nat)
  deriving DecidableEq, Repr

/-- `DestinationBuffer`: a tag and both members; `secureMemory` is the value of
the `native_handle_t *` that `getNativeHandle()` returns. -/
structure DestinationBuffer where
  type : BufferType
  nonsecureMemory : SharedBuffer
  secureMemory : Nat
  deriving DecidableEq, Repr

/-- A mapped `IMemory`: what `getPointer()` and `getSize()` return. -/
structure IMemory where
  pointer : Nat
  size : Nat
  deriving DecidableEq, Repr

/-- `IMemory::getPointer`. -/
def IMemory.getPointer (m : IMemory) : Nat := m.pointer

/-- `IMemory::getSize`. -/
def IMemory.getSize (m : IMemory) : Nat := m.size

/-- The fields of a `SharedBuffer` fit their machine types. -/
def SharedBuffer.WellFormed (b : SharedBuffer) : Prop :=
  b.bufferId < 2 ^ 32 ∧ b.offset < 2 ^ 64 ∧ b.size < 2 ^ 64

/-- The fields of a `SubSample` fit `uint32_t`. -/
def SubSample.WellFormed (s : SubSample) : Prop :=
  s.numBytesOfClearData < 2 ^ 32 ∧ s.numBytesOfEncryptedData < 2 ^ 32

/-! ## The registry `mSharedBufferMap` -/

/-- `std::map<uint32_t, sp<IMemory>>`. -/
abbrev Registry := List (Nat × Option IMemory)

/-- `mSharedBufferMap.find(k)`: `none` is `end()`, `some v` the mapped value. -/
def Registry.find : Registry → Nat → Option (Option IMemory)
  | [], _ => none
  | (k, v) :: rest, key => if k = key then some v else Registry.find rest key

/-- Assignment `mSharedBufferMap[k] = v`: the entry of `k` is replaced when
there is one and created otherwise. -/
def Registry.assign : Registry → Nat → Option IMemory → Registry
  | [], key, v => [(key, v)]
  | (k, old) :: rest, key, v =>
    if k = key then (k, v) :: rest else (k, old) :: Registry.assign rest key v

/-- Read `mSharedBufferMap[k]`: the mapped value, or, when `k` has no entry, a
default-constructed (null) value that `operator[]` inserts. -/
def Registry.index (m : Registry) (key : Nat) : Option IMemory × Registry :=
  match Registry.find m key with
  | some v => (v, m)
  | none => (none, Registry.assign m key none)

/-- `setSharedBufferBase`: map `base` and store the result, null included,
under `bufferId`. -/
def setSharedBufferBase {HidlMemory : Type} (mapMemory : HidlMemory → Option IMemory)
    (registry : Registry) (base : HidlMemory) (bufferId : Nat) : Registry :=
  let hidlMemory := mapMemory base
  Registry.assign registry bufferId hidlMemory

/-! ## Arithmetic helpers -/

/-- `__builtin_add_overflow(a, b, &r)` with `r` of `bits` bits: whether the
exact sum does not fit, and the value stored in `r`. -/
def builtin_add_overflow (bits a b : Nat) : Bool × Nat :=
  (decide (2 ^ bits ≤ a + b), (a + b) % 2 ^ bits)

/-- Address arithmetic `base + offset` on a `uint8_t *`, with `offset` a
`uint64_t`: a pointer has `bits` bits, the width of `size_t`, and the address
wraps at that width. -/
def pointerAdd (bits base offset : Nat) : Nat := (base + offset) % 2 ^ bits

/-- Conversion of an `ssize_t` to `uint32_t`. -/
def toUInt32 (z : Int) : Nat := (z % 2 ^ 32).toNat

/-- Conversion of a `uint32_t` to `status_t` (`int32_t`). -/
def toStatusT (n : Nat) : Int :=
  if n % 2 ^ 32 < 2 ^ 31 then (n % 2 ^ 32 : Nat) else ((n % 2 ^ 32 : Nat) : Int) - 2 ^ 32

/-! ## The legacy plugin and the outcome of a call -/

/-- Arguments of `mLegacyPlugin->decrypt`. -/
structure LegacyDecryptArgs where
  secure : Bool
  keyId : List Nat
  iv : List Nat
  mode : LegacyMode
  pattern : LegacyPattern
  srcPtr : Nat
  subSamples : List LegacySubSample
  numSubSamples : Nat
  destPtr : Nat
  deriving DecidableEq, Repr

/-- One invocation of `_hidl_cb`. -/
structure Callback where
  status : Status
  bytesWritten : Nat
  detailedError : String
  deriving DecidableEq, Repr

/-- What the build and the collaborators of the plugin provide: the width of
`size_t`, `toStatus` of `TypeConvert.h`, and `mLegacyPlugin->decrypt`, which
returns an `ssize_t` and the detail message it wrote. -/
structure Host where
  sizeBits : Nat
  toStatus : Int → Status
  legacyDecrypt : LegacyDecryptArgs → Int × String

/-- What a call of `decrypt` did. -/
structure Outcome where
  registry : Registry
  engineCalls : List LegacyDecryptArgs
  callbacks : List Callback
  deriving DecidableEq, Repr

/-- A path that invokes `_hidl_cb(status, 0, message)` and returns without
having called the legacy plugin. -/
def reject (registry : Registry) (status : Status) (message : String) : Outcome :=
  { registry := registry, engineCalls := [], callbacks := [⟨status, 0, message⟩] }

/-- The `switch` that translates `Mode`. -/
def toLegacyMode : Mode → LegacyMode
  | .UNENCRYPTED => .kMode_Unencrypted
  | .AES_CTR => .kMode_AES_CTR
  | .AES_CBC_CTS => .kMode_AES_WV
  | .AES_CBC => .kMode_AES_CBC

/-- The loop over `subSamples`: copies each element to `legacySubSamples` and
adds its two counts to `destSize` with overflow detection; an overflow ends the
call with the message returned as the error. -/
def sizeLoop (sizeBits : Nat) :
    List SubSample → Nat → List LegacySubSample → Except String (Nat × List LegacySubSample)
  | [], destSize, legacySubSamples => .ok (destSize, legacySubSamples)
  | s :: rest, destSize, legacySubSamples =>
    let numBytesOfClearData := s.numBytesOfClearData
    let numBytesOfEncryptedData := s.numBytesOfEncryptedData
    let clearAdd := builtin_add_overflow sizeBits destSize numBytesOfClearData
    if clearAdd.1 then .error "subsample clear size overflow"
    else
      let encryptedAdd := builtin_add_overflow sizeBits clearAdd.2 numBytesOfEncryptedData
      if encryptedAdd.1 then .error "subsample encrypted size overflow"
      else
        sizeLoop sizeBits rest encryptedAdd.2
          (legacySubSamples ++ [⟨numBytesOfClearData, numBytesOfEncryptedData⟩])

/-- The condition of the source bounds check: either addition overflows
`size_t`, or the total exceeds `getSize()`. -/
def sourceOutOfBounds (sizeBits : Nat) (source : SharedBuffer) (offset : Nat)
    (sourceBase : IMemory) : Bool :=
  let first := builtin_add_overflow sizeBits source.offset offset
  first.1 ||
    (let second := builtin_add_overflow sizeBits first.2 source.size
     second.1 || decide (second.2 > sourceBase.getSize))

/-- The condition of the destination bounds check:
`destBuffer.offset + destBuffer.size > destBase->getSize()` in `uint64_t`. -/
def destOutOfBounds (destBuffer : SharedBuffer) (destBase : IMemory) : Bool :=
  decide ((destBuffer.offset + destBuffer.size) % 2 ^ 64 > destBase.getSize)

/-- The call of the legacy plugin and the mapping of its result. -/
def dispatch (host : Host) (registry : Registry) (args : LegacyDecryptArgs) : Outcome :=
  let reply := host.legacyDecrypt args
  let result := reply.1
  let detailMessage := reply.2
  let status := if result ≥ 0 then 0 else toUInt32 result
  let bytesWritten := if result ≥ 0 then toUInt32 result else 0
  { registry := registry, engineCalls := [args],
    callbacks := [⟨host.toStatus (toStatusT status), bytesWritten, detailMessage⟩] }

/-- `CryptoPlugin::decrypt`. -/
def decrypt (host : Host) (registry : Registry) (secure : Bool) (keyId iv : List Nat)
    (mode : Mode) (pattern : Pattern) (subSamples : List SubSample)
    (source : SharedBuffer) (offset : Nat) (destination : DestinationBuffer) : Outcome :=
  if Registry.find registry source.bufferId = none then
    reject registry .ERROR_DRM_CANNOT_HANDLE "source decrypt buffer base not set"
  else if destination.type = .SHARED_MEMORY ∧
      Registry.find registry destination.nonsecureMemory.bufferId = none then
    reject registry .ERROR_DRM_CANNOT_HANDLE "destination decrypt buffer base not set"
  else
    let legacyMode := toLegacyMode mode
    let legacyPattern : LegacyPattern := ⟨pattern.encryptBlocks, pattern.skipBlocks⟩
    match sizeLoop host.sizeBits subSamples 0 [] with
    | .error message => reject registry .BAD_VALUE message
    | .ok (destSize, legacySubSamples) =>
      let sourceRead := Registry.index registry source.bufferId
      match sourceRead.1 with
      | none => reject sourceRead.2 .ERROR_DRM_CANNOT_HANDLE "source is a nullptr"
      | some sourceBase =>
        if sourceOutOfBounds host.sizeBits source offset sourceBase then
          reject sourceRead.2 .ERROR_DRM_CANNOT_HANDLE "invalid buffer size"
        else
          let srcPtr := sourceBase.getPointer + source.offset + offset
          match destination.type with
          | .SHARED_MEMORY =>
            let destBuffer := destination.nonsecureMemory
            let destRead := Registry.index sourceRead.2 destBuffer.bufferId
            match destRead.1 with
            | none => reject destRead.2 .ERROR_DRM_CANNOT_HANDLE "destination is a nullptr"
            | some destBase =>
              if destOutOfBounds destBuffer destBase then
                reject destRead.2 .ERROR_DRM_CANNOT_HANDLE "invalid buffer size"
              else if destSize > destBuffer.size then
                reject destRead.2 .BAD_VALUE "subsample sum too large"
              else
                let destPtr :=
                  pointerAdd host.sizeBits destBase.getPointer destination.nonsecureMemory.offset
                dispatch host destRead.2
                  ⟨secure, keyId, iv, legacyMode, legacyPattern, srcPtr, legacySubSamples,
                    subSamples.length, destPtr⟩
          | .NATIVE_HANDLE =>
            if !secure then
              reject sourceRead.2 .BAD_VALUE "native handle destination must be secure"
            else
              let destPtr := destination.secureMemory
              dispatch host sourceRead.2
                ⟨secure, keyId, iv, legacyMode, legacyPattern, srcPtr, legacySubSamples,
                  subSamples.length, destPtr⟩
          | .invalid _ => reject sourceRead.2 .BAD_VALUE "invalid destination type"

/-- The legacy plugin was called during the call. -/
def Outcome.engineInvoked (o : Outcome) : Prop := o.engineCalls ≠ []

instance (o : Outcome) : Decidable o.engineInvoked := by
  unfold Outcome.engineInvoked; infer_instance

/-- The exact sum of all clear and encrypted byte counts. -/
def subSampleSum : List SubSample → Nat
  | [] => 0
  | s :: rest => s.numBytesOfClearData + s.numBytesOfEncryptedData + subSampleSum rest

/-- The copy of the subsamples that the loop builds. -/
def legacyCopy (subSamples : List SubSample) : List LegacySubSample :=
  subSamples.map (fun s => ⟨s.numBytesOfClearData, s.numBytesOfEncryptedData⟩)

/-- A registry used in concrete evaluations: buffer 1 is a mapped region of
1024 bytes at address 4096. -/
def sampleRegistry : Registry := [(1, some ⟨4096, 1024⟩)]

/-- A memory mapper used in concrete evaluations: a memory handle is a number,
handle 0 fails to map and handle `n` maps to 1024 bytes at address `4096 * n`. -/
def sampleMapMemory (handle : Nat) : Option IMemory :=
  if handle = 0 then none else some ⟨4096 * handle, 1024⟩

/-- A host used in concrete evaluations: the legacy plugin reports that it
wrote the bytes of all subsamples. -/
def sampleHost (sizeBits : Nat) : Host :=
  { sizeBits := sizeBits
    toStatus := fun code => if code = 0 then .OK else .other (toUInt32 code)
    legacyDecrypt := fun args =>
      (((args.subSamples.map
          (fun s => s.mNumBytesOfClearData + s.mNumBytesOfEncryptedData)).sum : Nat), "") }

/-- Modelled from the spec: `toStatus` of `TypeConvert.h` is not part of this
file. The result contract of the spec (scenario A: the engine returns 300 and
the result is status OK) requires it to convert the legacy success code
`android::OK`, which is 0, to `Status::OK`. -/
def Host.convertsOK (host : Host) : Prop := host.toStatus 0 = .OK

/-- A host used in concrete evaluations whose legacy plugin fails with the
negative code `-2000` and the detail message `"decrypt failed"`. -/
def sampleFailingHost (sizeBits : Nat) : Host :=
  { sizeBits := sizeBits
    toStatus := fun code => if code = 0 then .OK else .other (toUInt32 code)
    legacyDecrypt := fun _ => (-2000, "decrypt failed") }

/-! ## Lemmas on the registry -/

theorem Registry.index_of_find {m : Registry} {key : Nat} {v : Option IMemory}
    (h : Registry.find m key = some v) : Registry.index m key = (v, m) := by
  simp [Registry.index, h]

theorem Registry.index_of_find_ne_none {m : Registry} {key : Nat}
    (h : Registry.find m key ≠ none) :
    ∃ v, Registry.find m key = some v ∧ Registry.index m key = (v, m) := by
  obtain ⟨v, hv⟩ := Option.ne_none_iff_exists'.mp h
  exact ⟨v, hv, Registry.index_of_find hv⟩

theorem Registry.find_assign_self (m : Registry) (key : Nat) (v : Option IMemory) :
    Registry.find (Registry.assign m key v) key = some v := by
  induction m with
  | nil => simp [Registry.assign, Registry.find]
  | cons e rest ih =>
    obtain ⟨k, old⟩ := e
    by_cases hk : k = key
    · simp [Registry.assign, Registry.find, hk]
    · simp [Registry.assign, Registry.find, hk, ih]

theorem Registry.find_assign_of_ne (m : Registry) {key other : Nat} (v : Option IMemory)
    (hne : other ≠ key) :
    Registry.find (Registry.assign m key v) other = Registry.find m other := by
  have hko : ¬ key = other := fun h => hne h.symm
  induction m with
  | nil => simp [Registry.assign, Registry.find, hko]
  | cons e rest ih =>
    obtain ⟨k, old⟩ := e
    by_cases hk : k = key
    · subst hk
      simp [Registry.assign, Registry.find, hko]
    · by_cases ho : k = other
      · subst ho
        simp [Registry.assign, Registry.find, hk]
      · simp [Registry.assign, Registry.find, hk, ho, ih]

/-! ## Lemmas on the arithmetic -/

theorem builtin_add_overflow_fst (bits a b : Nat) :
    (builtin_add_overflow bits a b).1 = decide (2 ^ bits ≤ a + b) := rfl

theorem builtin_add_overflow_snd_of_lt {bits a b : Nat} (h : a + b < 2 ^ bits) :
    (builtin_add_overflow bits a b).2 = a + b := by
  simp [builtin_add_overflow, Nat.mod_eq_of_lt h]

theorem sizeLoop_ok (sizeBits : Nat) :
    ∀ (subSamples : List SubSample) (destSize : Nat) (legacy : List LegacySubSample),
      destSize + subSampleSum subSamples < 2 ^ sizeBits →
      sizeLoop sizeBits subSamples destSize legacy =
        .ok (destSize + subSampleSum subSamples, legacy ++ legacyCopy subSamples) := by
  intro subSamples
  induction subSamples with
  | nil => intro destSize legacy _; simp [sizeLoop, subSampleSum, legacyCopy]
  | cons s rest ih =>
    intro destSize legacy h
    simp only [subSampleSum] at h
    have h1 : destSize + s.numBytesOfClearData < 2 ^ sizeBits := by omega
    have h2 : destSize + s.numBytesOfClearData + s.numBytesOfEncryptedData < 2 ^ sizeBits := by
      omega
    have e1 := builtin_add_overflow_snd_of_lt h1
    have e2 := builtin_add_overflow_snd_of_lt h2
    have n1 : ¬ 2 ^ sizeBits ≤ destSize + s.numBytesOfClearData := by omega
    have n2 : ¬ 2 ^ sizeBits ≤ destSize + s.numBytesOfClearData + s.numBytesOfEncryptedData := by
      omega
    have hrest : destSize + s.numBytesOfClearData + s.numBytesOfEncryptedData
        + subSampleSum rest < 2 ^ sizeBits := by omega
    simp only [sizeLoop, builtin_add_overflow_fst, e1, e2, n1, n2, decide_False,
      Bool.false_eq_true, if_false]
    rw [ih _ _ hrest]
    simp [subSampleSum, legacyCopy, Nat.add_assoc]

theorem sizeLoop_error (sizeBits : Nat) :
    ∀ (subSamples : List SubSample) (destSize : Nat) (legacy : List LegacySubSample),
      destSize < 2 ^ sizeBits → 2 ^ sizeBits ≤ destSize + subSampleSum subSamples →
      sizeLoop sizeBits subSamples destSize legacy = .error "subsample clear size overflow" ∨
      sizeLoop sizeBits subSamples destSize legacy = .error "subsample encrypted size overflow" := by
  intro subSamples
  induction subSamples with
  | nil => intro destSize legacy hlt h; simp [subSampleSum] at h; omega
  | cons s rest ih =>
    intro destSize legacy hlt h
    simp only [subSampleSum] at h
    by_cases c1 : 2 ^ sizeBits ≤ destSize + s.numBytesOfClearData
    · left; simp [sizeLoop, builtin_add_overflow_fst, c1]
    · have e1 := builtin_add_overflow_snd_of_lt (Nat.lt_of_not_le c1)
      by_cases c2 : 2 ^ sizeBits ≤ destSize + s.numBytesOfClearData + s.numBytesOfEncryptedData
      · right; simp [sizeLoop, builtin_add_overflow_fst, c1, e1, c2]
      · have e2 := builtin_add_overflow_snd_of_lt (Nat.lt_of_not_le c2)
        simp only [sizeLoop, builtin_add_overflow_fst, e1, e2, c1, c2, decide_False,
          Bool.false_eq_true, if_false]
        exact ih _ _ (Nat.lt_of_not_le c2) (by omega)

theorem sourceOutOfBounds_eq_false_iff (sizeBits : Nat) (source : SharedBuffer) (offset : Nat)
    (sourceBase : IMemory) :
    sourceOutOfBounds sizeBits source offset sourceBase = false ↔
      source.offset + offset < 2 ^ sizeBits ∧
      source.offset + offset + source.size < 2 ^ sizeBits ∧
      source.offset + offset + source.size ≤ sourceBase.getSize := by
  unfold sourceOutOfBounds
  by_cases c1 : 2 ^ sizeBits ≤ source.offset + offset
  · simp [builtin_add_overflow_fst, c1]
  · have e1 := builtin_add_overflow_snd_of_lt (Nat.lt_of_not_le c1)
    by_cases c2 : 2 ^ sizeBits ≤ source.offset + offset + source.size
    · simp [builtin_add_overflow_fst, c1, e1, c2]
    · have e2 := builtin_add_overflow_snd_of_lt (Nat.lt_of_not_le c2)
      simp [builtin_add_overflow_fst, c1, e1, c2, e2]
      omega

/-! ## The paths of `decrypt`

Once the two `find` checks have passed, both indexed reads hit an existing
entry, so the rest of the call can be read off the two entries. -/

theorem decrypt_source_absent (host : Host) (registry : Registry) (secure : Bool)
    (keyId iv : List Nat) (mode : Mode) (pattern : Pattern) (subSamples : List SubSample)
    (source : SharedBuffer) (offset : Nat) (destination : DestinationBuffer)
    (hs : Registry.find registry source.bufferId = none) :
    decrypt host registry secure keyId iv mode pattern subSamples source offset destination =
      reject registry .ERROR_DRM_CANNOT_HANDLE "source decrypt buffer base not set" := by
  simp [decrypt, hs]

theorem decrypt_dest_absent (host : Host) (registry : Registry) (secure : Bool)
    (keyId iv : List Nat) (mode : Mode) (pattern : Pattern) (subSamples : List SubSample)
    (source : SharedBuffer) (offset : Nat) (destination : DestinationBuffer)
    (hs : Registry.find registry source.bufferId ≠ none)
    (hty : destination.type = .SHARED_MEMORY)
    (hd : Registry.find registry destination.nonsecureMemory.bufferId = none) :
    decrypt host registry secure keyId iv mode pattern subSamples source offset destination =
      reject registry .ERROR_DRM_CANNOT_HANDLE "destination decrypt buffer base not set" := by
  simp [decrypt, hs, hty, hd]

theorem decrypt_shared (host : Host) (registry : Registry) (secure : Bool)
    (keyId iv : List Nat) (mode : Mode) (pattern : Pattern) (subSamples : List SubSample)
    (source : SharedBuffer) (offset : Nat) (destination : DestinationBuffer)
    (sb db : Option IMemory)
    (hs : Registry.find registry source.bufferId = some sb)
    (hty : destination.type = .SHARED_MEMORY)
    (hd : Registry.find registry destination.nonsecureMemory.bufferId = some db) :
    decrypt host registry secure keyId iv mode pattern subSamples source offset destination =
      match sizeLoop host.sizeBits subSamples 0 [] with
      | .error message => reject registry .BAD_VALUE message
      | .ok (destSize, legacySubSamples) =>
        match sb with
        | none => reject registry .ERROR_DRM_CANNOT_HANDLE "source is a nullptr"
        | some sourceBase =>
          if sourceOutOfBounds host.sizeBits source offset sourceBase then
            reject registry .ERROR_DRM_CANNOT_HANDLE "invalid buffer size"
          else
            match db with
            | none => reject registry .ERROR_DRM_CANNOT_HANDLE "destination is a nullptr"
            | some destBase =>
              if destOutOfBounds destination.nonsecureMemory destBase then
                reject registry .ERROR_DRM_CANNOT_HANDLE "invalid buffer size"
              else if destSize > destination.nonsecureMemory.size then
                reject registry .BAD_VALUE "subsample sum too large"
              else
                dispatch host registry
                  ⟨secure, keyId, iv, toLegacyMode mode,
                    ⟨pattern.encryptBlocks, pattern.skipBlocks⟩,
                    sourceBase.getPointer + source.offset + offset, legacySubSamples,
                    subSamples.length,
                    pointerAdd host.sizeBits destBase.getPointer
                      destination.nonsecureMemory.offset⟩ := by
  unfold decrypt
  rw [Registry.index_of_find hs]
  simp only [hs, hd, hty, reduceCtorEq, and_false, and_true, if_false]
  cases sizeLoop host.sizeBits subSamples 0 [] with
  | error message => rfl
  | ok p =>
    obtain ⟨destSize, legacySubSamples⟩ := p
    cases sb with
    | none => rfl
    | some sourceBase =>
      simp only [Registry.index_of_find hd]
      cases db <;> rfl

theorem decrypt_not_shared (host : Host) (registry : Registry) (secure : Bool)
    (keyId iv : List Nat) (mode : Mode) (pattern : Pattern) (subSamples : List SubSample)
    (source : SharedBuffer) (offset : Nat) (destination : DestinationBuffer)
    (sb : Option IMemory)
    (hs : Registry.find registry source.bufferId = some sb)
    (hty : destination.type ≠ .SHARED_MEMORY) :
    decrypt host registry secure keyId iv mode pattern subSamples source offset destination =
      match sizeLoop host.sizeBits subSamples 0 [] with
      | .error message => reject registry .BAD_VALUE message
      | .ok (_, legacySubSamples) =>
        match sb with
        | none => reject registry .ERROR_DRM_CANNOT_HANDLE "source is a nullptr"
        | some sourceBase =>
          if sourceOutOfBounds host.sizeBits source offset sourceBase then
            reject registry .ERROR_DRM_CANNOT_HANDLE "invalid buffer size"
          else if destination.type = .NATIVE_HANDLE then
            if secure = false then
              reject registry .BAD_VALUE "native handle destination must be secure"
            else
              dispatch host registry
                ⟨secure, keyId, iv, toLegacyMode mode,
                  ⟨pattern.encryptBlocks, pattern.skipBlocks⟩,
                  sourceBase.getPointer + source.offset + offset, legacySubSamples,
                  subSamples.length, destination.secureMemory⟩
          else reject registry .BAD_VALUE "invalid destination type" := by
  unfold decrypt
  rw [Registry.index_of_find hs]
  simp only [hs, hty, reduceCtorEq, false_and, if_false]
  cases sizeLoop host.sizeBits subSamples 0 [] with
  | error message => rfl
  | ok p =>
    obtain ⟨destSize, legacySubSamples⟩ := p
    cases sb with
    | none => rfl
    | some sourceBase =>
      cases hds : destination.type with
      | SHARED_MEMORY => exact absurd hds hty
      | NATIVE_HANDLE => cases secure <;> simp
      | invalid raw => simp

theorem sizeLoop_ok_inv {sizeBits : Nat} {subSamples : List SubSample} {destSize : Nat}
    {legacy : List LegacySubSample}
    (h : sizeLoop sizeBits subSamples 0 [] = .ok (destSize, legacy)) :
    destSize = subSampleSum subSamples ∧ subSampleSum subSamples < 2 ^ sizeBits ∧
      legacy = legacyCopy subSamples := by
  by_cases hlt : subSampleSum subSamples < 2 ^ sizeBits
  · have hok := sizeLoop_ok sizeBits subSamples 0 [] (by simpa using hlt)
    rw [hok] at h
    simp at h
    exact ⟨h.1.symm, hlt, h.2.symm⟩
  · have herr := sizeLoop_error sizeBits subSamples 0 [] (Nat.pos_pow_of_pos _ (by decide))
      (by simpa using Nat.le_of_not_lt hlt)
    rcases herr with herr | herr <;> rw [herr] at h <;> cases h

theorem reject_engineCalls (registry : Registry) (status : Status) (message : String) :
    (reject registry status message).engineCalls = [] := rfl

theorem reject_not_engineInvoked (registry : Registry) (status : Status) (message : String) :
    ¬ (reject registry status message).engineInvoked := by
  simp [Outcome.engineInvoked, reject]

theorem dispatch_engineInvoked (host : Host) (registry : Registry) (args : LegacyDecryptArgs) :
    (dispatch host registry args).engineInvoked := by
  simp [Outcome.engineInvoked, dispatch]

/-- Every call that reaches the legacy plugin went through all the checks: the
source entry is a mapped region, the size loop ended without overflow, the
source check passed, and the destination is either a shared buffer that passed
its two checks or a native handle on a secure call. -/
theorem decrypt_engineInvoked_inv (host : Host) (registry : Registry) (secure : Bool)
    (keyId iv : List Nat) (mode : Mode) (pattern : Pattern) (subSamples : List SubSample)
    (source : SharedBuffer) (offset : Nat) (destination : DestinationBuffer)
    (h : (decrypt host registry secure keyId iv mode pattern subSamples source offset
      destination).engineInvoked) :
    ∃ sourceBase destSize legacy,
      Registry.find registry source.bufferId = some (some sourceBase) ∧
      sizeLoop host.sizeBits subSamples 0 [] = .ok (destSize, legacy) ∧
      sourceOutOfBounds host.sizeBits source offset sourceBase = false ∧
      ((destination.type = .SHARED_MEMORY ∧
          ∃ destBase,
            Registry.find registry destination.nonsecureMemory.bufferId = some (some destBase) ∧
            destOutOfBounds destination.nonsecureMemory destBase = false ∧
            destSize ≤ destination.nonsecureMemory.size ∧
            decrypt host registry secure keyId iv mode pattern subSamples source offset
                destination =
              dispatch host registry
                ⟨secure, keyId, iv, toLegacyMode mode,
                  ⟨pattern.encryptBlocks, pattern.skipBlocks⟩,
                  sourceBase.getPointer + source.offset + offset, legacy, subSamples.length,
                  pointerAdd host.sizeBits destBase.getPointer
                    destination.nonsecureMemory.offset⟩) ∨
        (destination.type = .NATIVE_HANDLE ∧ secure = true ∧
            decrypt host registry secure keyId iv mode pattern subSamples source offset
                destination =
              dispatch host registry
                ⟨secure, keyId, iv, toLegacyMode mode,
                  ⟨pattern.encryptBlocks, pattern.skipBlocks⟩,
                  sourceBase.getPointer + source.offset + offset, legacy, subSamples.length,
                  destination.secureMemory⟩)) := by
  cases hs : Registry.find registry source.bufferId with
  | none =>
    rw [decrypt_source_absent _ _ _ _ _ _ _ _ _ _ _ hs] at h
    exact absurd h (reject_not_engineInvoked _ _ _)
  | some sb =>
    by_cases hty : destination.type = .SHARED_MEMORY
    · cases hd : Registry.find registry destination.nonsecureMemory.bufferId with
      | none =>
        rw [decrypt_dest_absent _ _ _ _ _ _ _ _ _ _ _ (by simp [hs]) hty hd] at h
        exact absurd h (reject_not_engineInvoked _ _ _)
      | some db =>
        have e := decrypt_shared host registry secure keyId iv mode pattern subSamples source
          offset destination sb db hs hty hd
        rw [e] at h ⊢
        cases hl : sizeLoop host.sizeBits subSamples 0 [] with
        | error message =>
          rw [hl] at h; exact absurd h (reject_not_engineInvoked _ _ _)
        | ok p =>
          obtain ⟨destSize, legacy⟩ := p
          rw [hl] at h
          cases sb with
          | none => exact absurd h (reject_not_engineInvoked _ _ _)
          | some sourceBase =>
            cases hb : sourceOutOfBounds host.sizeBits source offset sourceBase with
            | true =>
              simp only [hb, if_true] at h
              exact absurd h (reject_not_engineInvoked _ _ _)
            | false =>
              simp only [hb, Bool.false_eq_true, if_false] at h
              cases db with
              | none => exact absurd h (reject_not_engineInvoked _ _ _)
              | some destBase =>
                cases hdb : destOutOfBounds destination.nonsecureMemory destBase with
                | true =>
                  simp only [hdb, if_true] at h
                  exact absurd h (reject_not_engineInvoked _ _ _)
                | false =>
                  simp only [hdb, Bool.false_eq_true, if_false] at h
                  by_cases hsz : destSize > destination.nonsecureMemory.size
                  · simp only [hsz, if_true] at h
                    exact absurd h (reject_not_engineInvoked _ _ _)
                  · refine ⟨sourceBase, destSize, legacy, rfl, rfl, hb, Or.inl ⟨hty, destBase,
                      rfl, hdb, Nat.le_of_not_lt hsz, ?_⟩⟩
                    simp [hb, hdb, hsz]
    · have e := decrypt_not_shared host registry secure keyId iv mode pattern subSamples source
        offset destination sb hs hty
      rw [e] at h ⊢
      cases hl : sizeLoop host.sizeBits subSamples 0 [] with
      | error message =>
        rw [hl] at h; exact absurd h (reject_not_engineInvoked _ _ _)
      | ok p =>
        obtain ⟨destSize, legacy⟩ := p
        rw [hl] at h
        cases sb with
        | none => exact absurd h (reject_not_engineInvoked _ _ _)
        | some sourceBase =>
          cases hb : sourceOutOfBounds host.sizeBits source offset sourceBase with
          | true =>
            simp only [hb, if_true] at h
            exact absurd h (reject_not_engineInvoked _ _ _)
          | false =>
            simp only [hb, Bool.false_eq_true, if_false] at h
            by_cases hn : destination.type = .NATIVE_HANDLE
            · simp only [hn, if_true] at h
              cases hsec : secure with
              | false =>
                simp only [hsec, if_true] at h
                exact absurd h (reject_not_engineInvoked _ _ _)
              | true =>
                refine ⟨sourceBase, destSize, legacy, rfl, rfl, hb, Or.inr ⟨hn, rfl, ?_⟩⟩
                simp [hb, hn]
            · simp only [hn, if_false] at h
              exact absurd h (reject_not_engineInvoked _ _ _)

theorem decrypt_size_overflow (host : Host) (registry : Registry) (secure : Bool)
    (keyId iv : List Nat) (mode : Mode) (pattern : Pattern) (subSamples : List SubSample)
    (source : SharedBuffer) (offset : Nat) (destination : DestinationBuffer) (message : String)
    (hs : Registry.find registry source.bufferId ≠ none)
    (hd : destination.type = .SHARED_MEMORY →
      Registry.find registry destination.nonsecureMemory.bufferId ≠ none)
    (hl : sizeLoop host.sizeBits subSamples 0 [] = .error message) :
    decrypt host registry secure keyId iv mode pattern subSamples source offset destination =
      reject registry .BAD_VALUE message := by
  obtain ⟨sb, hsb⟩ := Option.ne_none_iff_exists'.mp hs
  by_cases hty : destination.type = .SHARED_MEMORY
  · obtain ⟨db, hdb⟩ := Option.ne_none_iff_exists'.mp (hd hty)
    rw [decrypt_shared host registry secure keyId iv mode pattern subSamples source offset
      destination sb db hsb hty hdb, hl]
  · rw [decrypt_not_shared host registry secure keyId iv mode pattern subSamples source offset
      destination sb hsb hty, hl]

theorem decrypt_source_out_of_bounds (host : Host) (registry : Registry) (secure : Bool)
    (keyId iv : List Nat) (mode : Mode) (pattern : Pattern) (subSamples : List SubSample)
    (source : SharedBuffer) (offset : Nat) (destination : DestinationBuffer)
    (sourceBase : IMemory)
    (hs : Registry.find registry source.bufferId = some (some sourceBase))
    (hsum : subSampleSum subSamples < 2 ^ host.sizeBits)
    (hb : sourceOutOfBounds host.sizeBits source offset sourceBase = true) :
    ∃ message,
      decrypt host registry secure keyId iv mode pattern subSamples source offset destination =
        reject registry .ERROR_DRM_CANNOT_HANDLE message := by
  have hl := sizeLoop_ok host.sizeBits subSamples 0 [] (by simpa using hsum)
  by_cases hty : destination.type = .SHARED_MEMORY
  · cases hd : Registry.find registry destination.nonsecureMemory.bufferId with
    | none =>
      exact ⟨_, decrypt_dest_absent _ _ _ _ _ _ _ _ _ _ _ (by simp [hs]) hty hd⟩
    | some db =>
      rw [decrypt_shared host registry secure keyId iv mode pattern subSamples source offset
        destination _ db hs hty hd, hl]
      exact ⟨"invalid buffer size", by simp [hb]⟩
  · rw [decrypt_not_shared host registry secure keyId iv mode pattern subSamples source offset
      destination _ hs hty, hl]
    exact ⟨"invalid buffer size", by simp [hb]⟩

/-- Every call either ends in one rejection, with cannot-handle or BAD_VALUE,
that leaves the registry as it was and does not call the legacy plugin, or is
one dispatch to the legacy plugin on the registry as it was. -/
theorem decrypt_shape (host : Host) (registry : Registry) (secure : Bool)
    (keyId iv : List Nat) (mode : Mode) (pattern : Pattern) (subSamples : List SubSample)
    (source : SharedBuffer) (offset : Nat) (destination : DestinationBuffer) :
    (∃ message,
        decrypt host registry secure keyId iv mode pattern subSamples source offset destination =
          reject registry .ERROR_DRM_CANNOT_HANDLE message) ∨
      (∃ message,
        decrypt host registry secure keyId iv mode pattern subSamples source offset destination =
          reject registry .BAD_VALUE message) ∨
      (∃ args,
        decrypt host registry secure keyId iv mode pattern subSamples source offset destination =
          dispatch host registry args) := by
  cases hs : Registry.find registry source.bufferId with
  | none => exact Or.inl ⟨_, decrypt_source_absent _ _ _ _ _ _ _ _ _ _ _ hs⟩
  | some sb =>
    by_cases hty : destination.type = .SHARED_MEMORY
    · cases hd : Registry.find registry destination.nonsecureMemory.bufferId with
      | none => exact Or.inl ⟨_, decrypt_dest_absent _ _ _ _ _ _ _ _ _ _ _ (by simp [hs]) hty hd⟩
      | some db =>
        rw [decrypt_shared host registry secure keyId iv mode pattern subSamples source offset
          destination sb db hs hty hd]
        repeat' split
        all_goals
          first
            | exact Or.inl ⟨_, rfl⟩
            | exact Or.inr (Or.inl ⟨_, rfl⟩)
            | exact Or.inr (Or.inr ⟨_, rfl⟩)
    · rw [decrypt_not_shared host registry secure keyId iv mode pattern subSamples source offset
        destination sb hs hty]
      repeat' split
      all_goals
        first
          | exact Or.inl ⟨_, rfl⟩
          | exact Or.inr (Or.inl ⟨_, rfl⟩)
          | exact Or.inr (Or.inr ⟨_, rfl⟩)

/-! ## The claims -/

/-- C2 (the code at the failing input): with buffer 1 bound to a 1024-byte
region at address 4096, a well-formed destination descriptor with offset
`2 ^ 64 - 16` and size 16 passes the destination check, because the unchecked
`uint64_t` sum wraps to 0; the legacy plugin is called with the destination
pointer 4080, which is 16 bytes below the base of the region (the address
`4096 + (2 ^ 64 - 16)` wrapped at 64 bits), while `offset + size` as a natural
number is `2 ^ 64`, far above 1024. -/
theorem decrypt_destination_sum_wraps :
    SharedBuffer.WellFormed ⟨1, 2 ^ 64 - 16, 16⟩ ∧
      destOutOfBounds ⟨1, 2 ^ 64 - 16, 16⟩ ⟨4096, 1024⟩ = false ∧
      ¬ (2 ^ 64 - 16 + 16 ≤ 1024) ∧
      decrypt (sampleHost 64) sampleRegistry false [] [] .AES_CTR ⟨0, 0⟩ [⟨8, 8⟩]
          ⟨1, 0, 16⟩ 0 ⟨.SHARED_MEMORY, ⟨1, 2 ^ 64 - 16, 16⟩, 0⟩ =
        { registry := sampleRegistry
          engineCalls :=
            [⟨false, [], [], .kMode_AES_CTR, ⟨0, 0⟩, 4096, [⟨8, 8⟩], 1, 4080⟩]
          callbacks := [⟨.OK, 16, ""⟩] } := by
  refine ⟨⟨by decide, by decide, by decide⟩, by decide, by decide, by decide⟩

/-- C3: for a source bufferId bound to a mapped region of size `S` that fits
the address space (`S < 2 ^ sizeBits`) and a subsample list whose accumulation
does not overflow, the source bounds check passes if and only if
`source.offset + offset + source.size ≤ S` as natural numbers; it passes when
the sum equals `S`; when the sum equals `S + 1`, or either addition overflows
`size_t`, the check fails and the call is rejected with cannot-handle without
calling the legacy plugin; and with a native-handle destination on a secure
call the legacy plugin is called exactly when the sum is at most `S`. -/
theorem decrypt_source_bounds_check_iff (host : Host) (registry : Registry) (secure : Bool)
    (keyId iv : List Nat) (mode : Mode) (pattern : Pattern) (subSamples : List SubSample)
    (source : SharedBuffer) (offset : Nat) (destination : DestinationBuffer)
    (sourceBase : IMemory)
    (hbound : Registry.find registry source.bufferId = some (some sourceBase))
    (hfit : sourceBase.getSize < 2 ^ host.sizeBits)
    (hacc : subSampleSum subSamples < 2 ^ host.sizeBits) :
    (sourceOutOfBounds host.sizeBits source offset sourceBase = false ↔
        source.offset + offset + source.size ≤ sourceBase.getSize) ∧
      (source.offset + offset + source.size = sourceBase.getSize →
        sourceOutOfBounds host.sizeBits source offset sourceBase = false) ∧
      ((source.offset + offset + source.size = sourceBase.getSize + 1 ∨
          2 ^ host.sizeBits ≤ source.offset + offset ∨
          2 ^ host.sizeBits ≤ source.offset + offset + source.size) →
        sourceOutOfBounds host.sizeBits source offset sourceBase = true ∧
        ∃ message,
          decrypt host registry secure keyId iv mode pattern subSamples source offset
              destination =
            reject registry .ERROR_DRM_CANNOT_HANDLE message) ∧
      (destination.type = .NATIVE_HANDLE → secure = true →
        ((decrypt host registry secure keyId iv mode pattern subSamples source offset
            destination).engineInvoked ↔
          source.offset + offset + source.size ≤ sourceBase.getSize)) := by
  have hiff : sourceOutOfBounds host.sizeBits source offset sourceBase = false ↔
      source.offset + offset + source.size ≤ sourceBase.getSize := by
    rw [sourceOutOfBounds_eq_false_iff]
    constructor
    · intro h; exact h.2.2
    · intro h; refine ⟨?_, ?_, h⟩ <;> omega
  refine ⟨hiff, fun h => hiff.mpr (Nat.le_of_eq h), ?_, ?_⟩
  · intro h
    have hb : sourceOutOfBounds host.sizeBits source offset sourceBase = true := by
      cases hc : sourceOutOfBounds host.sizeBits source offset sourceBase with
      | true => rfl
      | false =>
        have := hiff.mp hc
        omega
    exact ⟨hb, decrypt_source_out_of_bounds host registry secure keyId iv mode pattern subSamples
      source offset destination sourceBase hbound hacc hb⟩
  · intro hty hsec
    constructor
    · intro h
      obtain ⟨sb, _, _, hs, _, hb, _⟩ :=
        decrypt_engineInvoked_inv host registry secure keyId iv mode pattern subSamples source
          offset destination h
      rw [hbound] at hs
      cases hs
      exact hiff.mp hb
    · intro h
      have hb := hiff.mpr h
      have hl := sizeLoop_ok host.sizeBits subSamples 0 [] (by simpa using hacc)
      rw [decrypt_not_shared host registry secure keyId iv mode pattern subSamples source offset
        destination _ hbound (by simp [hty]), hl]
      simp only [hb, hty, hsec, Bool.false_eq_true, if_false, if_true, reduceCtorEq]
      exact dispatch_engineInvoked _ _ _

/-- C3 (witness): with buffer 1 bound to 1024 bytes, the call with source offset
24, offset 900 and source size 100 (sum exactly 1024) passes the check, and the
call with source size 101 (sum 1025) is rejected with cannot-handle. -/
theorem decrypt_source_bounds_check_iff_witness :
    Registry.find sampleRegistry 1 = some (some ⟨4096, 1024⟩) ∧
      sourceOutOfBounds 64 ⟨1, 24, 100⟩ 900 ⟨4096, 1024⟩ = false ∧
      (sourceOutOfBounds 64 ⟨1, 24, 101⟩ 900 ⟨4096, 1024⟩ = true ∧
        ∃ message,
          decrypt (sampleHost 64) sampleRegistry true [] [] .AES_CTR ⟨0, 0⟩ [⟨50, 100⟩]
              ⟨1, 24, 101⟩ 900 ⟨.NATIVE_HANDLE, ⟨0, 0, 0⟩, 77⟩ =
            reject sampleRegistry .ERROR_DRM_CANNOT_HANDLE message) :=
  ⟨by decide,
    (decrypt_source_bounds_check_iff (sampleHost 64) sampleRegistry true [] [] .AES_CTR ⟨0, 0⟩
      [⟨50, 100⟩] ⟨1, 24, 100⟩ 900 ⟨.NATIVE_HANDLE, ⟨0, 0, 0⟩, 77⟩ ⟨4096, 1024⟩
      (by decide) (by decide) (by decide)).2.1 (by decide),
    (decrypt_source_bounds_check_iff (sampleHost 64) sampleRegistry true [] [] .AES_CTR ⟨0, 0⟩
      [⟨50, 100⟩] ⟨1, 24, 101⟩ 900 ⟨.NATIVE_HANDLE, ⟨0, 0, 0⟩, 77⟩ ⟨4096, 1024⟩
      (by decide) (by decide) (by decide)).2.2.1 (Or.inl (by decide))⟩

/-- C4: the size loop yields the exact sum of all clear and encrypted byte
counts when that sum fits `size_t`; it ends in an overflow error if and only if
the exact sum exceeds the largest `size_t` value (wherever in the list the
overflow happens); and then every call that reaches the loop is rejected with
BAD_VALUE without calling the legacy plugin. -/
theorem sizeLoop_exact_sum_or_overflow (sizeBits : Nat) (subSamples : List SubSample) :
    (subSampleSum subSamples < 2 ^ sizeBits →
        sizeLoop sizeBits subSamples 0 [] =
          .ok (subSampleSum subSamples, legacyCopy subSamples)) ∧
      ((∃ message, sizeLoop sizeBits subSamples 0 [] = .error message) ↔
        2 ^ sizeBits - 1 < subSampleSum subSamples) ∧
      (2 ^ sizeBits - 1 < subSampleSum subSamples →
        ∀ (host : Host) (registry : Registry) (secure : Bool) (keyId iv : List Nat) (mode : Mode)
          (pattern : Pattern) (source : SharedBuffer) (offset : Nat)
          (destination : DestinationBuffer),
          host.sizeBits = sizeBits →
          Registry.find registry source.bufferId ≠ none →
          (destination.type = .SHARED_MEMORY →
            Registry.find registry destination.nonsecureMemory.bufferId ≠ none) →
          ∃ message,
            decrypt host registry secure keyId iv mode pattern subSamples source offset
                destination =
              reject registry .BAD_VALUE message) := by
  have hpos : 0 < 2 ^ sizeBits := Nat.pos_pow_of_pos _ (by decide)
  have herr : 2 ^ sizeBits - 1 < subSampleSum subSamples →
      ∃ message, sizeLoop sizeBits subSamples 0 [] = .error message := by
    intro h
    rcases sizeLoop_error sizeBits subSamples 0 [] hpos (by omega) with e | e
    · exact ⟨_, e⟩
    · exact ⟨_, e⟩
  refine ⟨?_, ⟨?_, herr⟩, ?_⟩
  · intro h
    simpa using sizeLoop_ok sizeBits subSamples 0 [] (by simpa using h)
  · rintro ⟨message, hm⟩
    by_contra hn
    have hok := sizeLoop_ok sizeBits subSamples 0 [] (by omega)
    rw [hok] at hm
    cases hm
  · intro h host registry secure keyId iv mode pattern source offset destination hbits hs hd
    obtain ⟨message, hm⟩ := herr h
    subst hbits
    exact ⟨message, decrypt_size_overflow host registry secure keyId iv mode pattern subSamples
      source offset destination message hs hd hm⟩

/-- C4 (witness): with a 32-bit `size_t`, the list `{0xFFFFFFFF, 0}, {0, 1}`
overflows only at its last element, and the loop reports the overflow. -/
theorem sizeLoop_exact_sum_or_overflow_witness :
    2 ^ 32 - 1 < subSampleSum [⟨0xFFFFFFFF, 0⟩, ⟨0, 1⟩] ∧
      subSampleSum [⟨0xFFFFFFFF, 0⟩] < 2 ^ 32 ∧
      ∃ message, sizeLoop 32 [⟨0xFFFFFFFF, 0⟩, ⟨0, 1⟩] 0 [] = .error message :=
  ⟨by decide, by decide,
    (sizeLoop_exact_sum_or_overflow 32 [⟨0xFFFFFFFF, 0⟩, ⟨0, 1⟩]).2.1.mpr (by decide)⟩

/-- C5 (counterexample): with a 64-bit `size_t` the list
`{0xFFFFFFFF, 0xFFFFFFFF}` twice sums to 17179869180 without overflow, and a
call with a bound source reaches the legacy plugin instead of failing with
BAD_VALUE. -/
theorem decrypt_two_max_subsamples_accepted_64 :
    Registry.find sampleRegistry 1 ≠ none ∧
      sizeLoop 64 [⟨0xFFFFFFFF, 0xFFFFFFFF⟩, ⟨0xFFFFFFFF, 0xFFFFFFFF⟩] 0 [] =
        .ok (17179869180, [⟨0xFFFFFFFF, 0xFFFFFFFF⟩, ⟨0xFFFFFFFF, 0xFFFFFFFF⟩]) ∧
      (decrypt (sampleHost 64) sampleRegistry true [] [] .AES_CTR ⟨0, 0⟩
        [⟨0xFFFFFFFF, 0xFFFFFFFF⟩, ⟨0xFFFFFFFF, 0xFFFFFFFF⟩] ⟨1, 0, 0⟩ 0
        ⟨.NATIVE_HANDLE, ⟨0, 0, 0⟩, 77⟩).engineInvoked ∧
      (decrypt (sampleHost 64) sampleRegistry true [] [] .AES_CTR ⟨0, 0⟩
        [⟨0xFFFFFFFF, 0xFFFFFFFF⟩, ⟨0xFFFFFFFF, 0xFFFFFFFF⟩] ⟨1, 0, 0⟩ 0
        ⟨.NATIVE_HANDLE, ⟨0, 0, 0⟩, 77⟩).callbacks.map (fun c => c.status) = [.OK] := by
  refine ⟨by decide, rfl, by decide, by decide⟩

/-- C5 (amended): on a build whose `size_t` is 32 bits wide, every call whose
source buffer (and shared-memory destination buffer, if any) is bound and whose
subsample list is `{0xFFFFFFFF, 0xFFFFFFFF}` twice overflows in the size loop
and fails with BAD_VALUE; the legacy plugin is not called and neither buffer
is read. -/
theorem decrypt_two_max_subsamples_overflow_32 (host : Host) (registry : Registry)
    (secure : Bool) (keyId iv : List Nat) (mode : Mode) (pattern : Pattern)
    (source : SharedBuffer) (offset : Nat) (destination : DestinationBuffer)
    (hbits : host.sizeBits = 32)
    (hs : Registry.find registry source.bufferId ≠ none)
    (hd : destination.type = .SHARED_MEMORY →
      Registry.find registry destination.nonsecureMemory.bufferId ≠ none) :
    decrypt host registry secure keyId iv mode pattern
        [⟨0xFFFFFFFF, 0xFFFFFFFF⟩, ⟨0xFFFFFFFF, 0xFFFFFFFF⟩] source offset destination =
      reject registry .BAD_VALUE "subsample encrypted size overflow" := by
  apply decrypt_size_overflow host registry secure keyId iv mode pattern _ source offset
    destination _ hs hd
  rw [hbits]
  rfl

/-- C5 (witness): the call of scenario C on a 32-bit build, with source and
destination in buffer 1. -/
theorem decrypt_two_max_subsamples_overflow_32_witness :
    decrypt (sampleHost 32) sampleRegistry false [] [] .AES_CTR ⟨0, 0⟩
        [⟨0xFFFFFFFF, 0xFFFFFFFF⟩, ⟨0xFFFFFFFF, 0xFFFFFFFF⟩] ⟨1, 0, 0⟩ 0
        ⟨.SHARED_MEMORY, ⟨1, 0, 300⟩, 0⟩ =
      reject sampleRegistry .BAD_VALUE "subsample encrypted size overflow" :=
  decrypt_two_max_subsamples_overflow_32 (sampleHost 32) sampleRegistry false [] [] .AES_CTR
    ⟨0, 0⟩ ⟨1, 0, 0⟩ 0 ⟨.SHARED_MEMORY, ⟨1, 0, 300⟩, 0⟩ rfl (by decide) (fun _ => by decide)

/-- C6: a call whose source bufferId has no entry in the registry, or whose
destination is shared memory with a bufferId that has no entry, is answered
with ERROR_DRM_CANNOT_HANDLE and bytesWritten 0 and never calls the legacy
plugin, whatever the offset, sizes, mode, secure flag and subsample list (lists
that overflow included). -/
theorem decrypt_unbound_buffer_cannot_handle (host : Host) (registry : Registry)
    (secure : Bool) (keyId iv : List Nat) (mode : Mode) (pattern : Pattern)
    (subSamples : List SubSample) (source : SharedBuffer) (offset : Nat)
    (destination : DestinationBuffer)
    (h : Registry.find registry source.bufferId = none ∨
      (destination.type = .SHARED_MEMORY ∧
        Registry.find registry destination.nonsecureMemory.bufferId = none)) :
    (decrypt host registry secure keyId iv mode pattern subSamples source offset
        destination).engineCalls = [] ∧
      ∃ message,
        (decrypt host registry secure keyId iv mode pattern subSamples source offset
          destination).callbacks = [⟨.ERROR_DRM_CANNOT_HANDLE, 0, message⟩] := by
  by_cases hs : Registry.find registry source.bufferId = none
  · rw [decrypt_source_absent _ _ _ _ _ _ _ _ _ _ _ hs]
    exact ⟨rfl, _, rfl⟩
  · rcases h with h | ⟨hty, hd⟩
    · exact absurd h hs
    · rw [decrypt_dest_absent _ _ _ _ _ _ _ _ _ _ _ hs hty hd]
      exact ⟨rfl, _, rfl⟩

/-- C6 (witness): buffer 2 was never bound; a call that names it as source,
with a subsample list that overflows a 32-bit `size_t`, gets cannot-handle. -/
theorem decrypt_unbound_buffer_cannot_handle_witness :
    Registry.find sampleRegistry 2 = none ∧
      (decrypt (sampleHost 32) sampleRegistry false [] [] .AES_CTR ⟨0, 0⟩
        [⟨0xFFFFFFFF, 0xFFFFFFFF⟩] ⟨2, 0, 0⟩ 0 ⟨.SHARED_MEMORY, ⟨1, 0, 300⟩, 0⟩).engineCalls = [] ∧
      ∃ message,
        (decrypt (sampleHost 32) sampleRegistry false [] [] .AES_CTR ⟨0, 0⟩
          [⟨0xFFFFFFFF, 0xFFFFFFFF⟩] ⟨2, 0, 0⟩ 0 ⟨.SHARED_MEMORY, ⟨1, 0, 300⟩, 0⟩).callbacks =
          [⟨.ERROR_DRM_CANNOT_HANDLE, 0, message⟩] :=
  ⟨by decide,
    decrypt_unbound_buffer_cannot_handle (sampleHost 32) sampleRegistry false [] [] .AES_CTR
      ⟨0, 0⟩ [⟨0xFFFFFFFF, 0xFFFFFFFF⟩] ⟨2, 0, 0⟩ 0 ⟨.SHARED_MEMORY, ⟨1, 0, 300⟩, 0⟩
      (Or.inl (by decide))⟩

/-- C7 (counterexample): a native-handle destination on a non-secure call whose
source bufferId was never bound is answered with ERROR_DRM_CANNOT_HANDLE, not
BAD_VALUE: the source checks run before the destination branch. -/
theorem decrypt_native_handle_not_secure_cannot_handle :
    (⟨.NATIVE_HANDLE, ⟨0, 0, 0⟩, 77⟩ : DestinationBuffer).type = .NATIVE_HANDLE ∧
      decrypt (sampleHost 64) sampleRegistry false [] [] .AES_CTR ⟨0, 0⟩ [⟨50, 100⟩]
          ⟨2, 0, 150⟩ 0 ⟨.NATIVE_HANDLE, ⟨0, 0, 0⟩, 77⟩ =
        reject sampleRegistry .ERROR_DRM_CANNOT_HANDLE "source decrypt buffer base not set" := by
  decide

/-- C7 (amended): a call whose destination is a native handle and whose secure
flag is false never calls the legacy plugin and is rejected with BAD_VALUE or
cannot-handle. It is BAD_VALUE whenever the source bufferId is bound to a mapped
region and the source bounds check passes, and whenever the source bufferId is
bound and the size loop overflows; it is cannot-handle when the source bufferId
is unbound, and, with a size loop that does not overflow, when the source entry
is null or the source bounds check fails. -/
theorem decrypt_native_handle_not_secure (host : Host) (registry : Registry)
    (keyId iv : List Nat) (mode : Mode) (pattern : Pattern) (subSamples : List SubSample)
    (source : SharedBuffer) (offset : Nat) (destination : DestinationBuffer)
    (hty : destination.type = .NATIVE_HANDLE) :
    (decrypt host registry false keyId iv mode pattern subSamples source offset
        destination).engineCalls = [] ∧
      ((∃ sourceBase, Registry.find registry source.bufferId = some (some sourceBase) ∧
          sourceOutOfBounds host.sizeBits source offset sourceBase = false) →
        ∃ message,
          decrypt host registry false keyId iv mode pattern subSamples source offset
            destination = reject registry .BAD_VALUE message) ∧
      (Registry.find registry source.bufferId ≠ none →
        2 ^ host.sizeBits - 1 < subSampleSum subSamples →
        ∃ message,
          decrypt host registry false keyId iv mode pattern subSamples source offset
            destination = reject registry .BAD_VALUE message) ∧
      ((Registry.find registry source.bufferId = none ∨
          (subSampleSum subSamples < 2 ^ host.sizeBits ∧
            (Registry.find registry source.bufferId = some none ∨
              ∃ sourceBase, Registry.find registry source.bufferId = some (some sourceBase) ∧
                sourceOutOfBounds host.sizeBits source offset sourceBase = true))) →
        ∃ message,
          decrypt host registry false keyId iv mode pattern subSamples source offset
            destination = reject registry .ERROR_DRM_CANNOT_HANDLE message) := by
  have hns : destination.type ≠ .SHARED_MEMORY := by simp [hty]
  have hpos : 0 < 2 ^ host.sizeBits := Nat.pos_pow_of_pos _ (by decide)
  have hover : Registry.find registry source.bufferId ≠ none →
      2 ^ host.sizeBits - 1 < subSampleSum subSamples →
      ∃ message,
        decrypt host registry false keyId iv mode pattern subSamples source offset
          destination = reject registry .BAD_VALUE message := by
    intro hs hsum
    rcases sizeLoop_error host.sizeBits subSamples 0 [] hpos (by omega) with e | e
    · exact ⟨_, decrypt_size_overflow host registry false keyId iv mode pattern subSamples
        source offset destination _ hs (fun h => absurd h hns) e⟩
    · exact ⟨_, decrypt_size_overflow host registry false keyId iv mode pattern subSamples
        source offset destination _ hs (fun h => absurd h hns) e⟩
  refine ⟨?_, ?_, hover, ?_⟩
  · by_contra hne
    obtain ⟨_, _, _, _, _, _, hcase⟩ :=
      decrypt_engineInvoked_inv host registry false keyId iv mode pattern subSamples source
        offset destination hne
    rcases hcase with ⟨hsh, _⟩ | ⟨_, hsec, _⟩
    · exact hns hsh
    · cases hsec
  · rintro ⟨sourceBase, hs, hb⟩
    by_cases hsum : subSampleSum subSamples < 2 ^ host.sizeBits
    · have hl := sizeLoop_ok host.sizeBits subSamples 0 [] (by simpa using hsum)
      rw [decrypt_not_shared host registry false keyId iv mode pattern subSamples source offset
        destination _ hs hns, hl]
      exact ⟨"native handle destination must be secure", by simp [hb, hty]⟩
    · exact hover (by simp [hs]) (by omega)
  · rintro (hs | ⟨hsum, hs | ⟨sourceBase, hs, hb⟩⟩)
    · exact ⟨_, decrypt_source_absent _ _ _ _ _ _ _ _ _ _ _ hs⟩
    · have hl := sizeLoop_ok host.sizeBits subSamples 0 [] (by simpa using hsum)
      rw [decrypt_not_shared host registry false keyId iv mode pattern subSamples source offset
        destination _ hs hns, hl]
      exact ⟨"source is a nullptr", rfl⟩
    · exact decrypt_source_out_of_bounds host registry false keyId iv mode pattern subSamples
        source offset destination sourceBase hs hsum hb

/-- C7 (witness): with the source inside buffer 1, the non-secure call with a
native-handle destination is rejected with BAD_VALUE. -/
theorem decrypt_native_handle_not_secure_witness :
    (∃ sourceBase, Registry.find sampleRegistry 1 = some (some sourceBase) ∧
        sourceOutOfBounds 64 ⟨1, 0, 150⟩ 0 sourceBase = false) ∧
      ∃ message,
        decrypt (sampleHost 64) sampleRegistry false [] [] .AES_CTR ⟨0, 0⟩ [⟨50, 100⟩]
            ⟨1, 0, 150⟩ 0 ⟨.NATIVE_HANDLE, ⟨0, 0, 0⟩, 77⟩ =
          reject sampleRegistry .BAD_VALUE message :=
  ⟨⟨⟨4096, 1024⟩, by decide, by decide⟩,
    (decrypt_native_handle_not_secure (sampleHost 64) sampleRegistry [] [] .AES_CTR ⟨0, 0⟩
      [⟨50, 100⟩] ⟨1, 0, 150⟩ 0 ⟨.NATIVE_HANDLE, ⟨0, 0, 0⟩, 77⟩ rfl).2.1
      ⟨⟨4096, 1024⟩, by decide, by decide⟩⟩

/-- C8: with a shared-memory destination, whenever the legacy plugin is called
the exact subsample total is at most `destination.size`; and a call that passes
every earlier check (both buffers bound to mapped regions, no overflow in the
size loop, source and destination bounds checks passed) with a total strictly
greater than `destination.size` is rejected with BAD_VALUE without calling the
legacy plugin. -/
theorem decrypt_subsample_total_within_destination (host : Host) (registry : Registry)
    (secure : Bool) (keyId iv : List Nat) (mode : Mode) (pattern : Pattern)
    (subSamples : List SubSample) (source : SharedBuffer) (offset : Nat)
    (destination : DestinationBuffer)
    (hty : destination.type = .SHARED_MEMORY) :
    ((decrypt host registry secure keyId iv mode pattern subSamples source offset
          destination).engineInvoked →
        subSampleSum subSamples ≤ destination.nonsecureMemory.size) ∧
      (∀ sourceBase destBase : IMemory,
        Registry.find registry source.bufferId = some (some sourceBase) →
        Registry.find registry destination.nonsecureMemory.bufferId = some (some destBase) →
        subSampleSum subSamples < 2 ^ host.sizeBits →
        sourceOutOfBounds host.sizeBits source offset sourceBase = false →
        destOutOfBounds destination.nonsecureMemory destBase = false →
        destination.nonsecureMemory.size < subSampleSum subSamples →
        decrypt host registry secure keyId iv mode pattern subSamples source offset
            destination =
          reject registry .BAD_VALUE "subsample sum too large") := by
  constructor
  · intro h
    obtain ⟨_, destSize, legacy, _, hl, _, hcase⟩ :=
      decrypt_engineInvoked_inv host registry secure keyId iv mode pattern subSamples source
        offset destination h
    have hsum := (sizeLoop_ok_inv hl).1
    rcases hcase with ⟨_, _, _, _, hle, _⟩ | ⟨hn, _, _⟩
    · omega
    · rw [hty] at hn; cases hn
  · intro sourceBase destBase hs hd hsum hb hdb hgt
    have hl := sizeLoop_ok host.sizeBits subSamples 0 [] (by simpa using hsum)
    rw [decrypt_shared host registry secure keyId iv mode pattern subSamples source offset
      destination _ _ hs hty hd, hl]
    simp [hb, hdb, hgt]

/-- C8 (witness): scenario A reaches the legacy plugin with a total of 300 in a
destination of size 300; with a destination of size 299 the same call is
rejected with BAD_VALUE. -/
theorem decrypt_subsample_total_within_destination_witness :
    subSampleSum [⟨100, 200⟩] ≤ 300 ∧
      decrypt (sampleHost 64) sampleRegistry false [] [] .AES_CTR ⟨0, 0⟩ [⟨100, 200⟩]
          ⟨1, 0, 300⟩ 0 ⟨.SHARED_MEMORY, ⟨1, 0, 299⟩, 0⟩ =
        reject sampleRegistry .BAD_VALUE "subsample sum too large" :=
  ⟨(decrypt_subsample_total_within_destination (sampleHost 64) sampleRegistry false [] []
      .AES_CTR ⟨0, 0⟩ [⟨100, 200⟩] ⟨1, 0, 300⟩ 0 ⟨.SHARED_MEMORY, ⟨1, 0, 300⟩, 0⟩ rfl).1
      (by decide),
    (decrypt_subsample_total_within_destination (sampleHost 64) sampleRegistry false [] []
      .AES_CTR ⟨0, 0⟩ [⟨100, 200⟩] ⟨1, 0, 300⟩ 0 ⟨.SHARED_MEMORY, ⟨1, 0, 299⟩, 0⟩ rfl).2
      ⟨4096, 1024⟩ ⟨4096, 1024⟩ (by decide) (by decide) (by decide) (by decide) (by decide)
      (by decide)⟩

/-- C9: `decrypt` leaves the registry exactly as it was on every path, so every
bufferId has the same entry before and after the call. The indexed read
`mSharedBufferMap[k]` would insert a null entry for an absent key, but both
reads in `decrypt` come after a successful `find` of the same key. -/
theorem decrypt_registry_unchanged (host : Host) (registry : Registry) (secure : Bool)
    (keyId iv : List Nat) (mode : Mode) (pattern : Pattern) (subSamples : List SubSample)
    (source : SharedBuffer) (offset : Nat) (destination : DestinationBuffer) :
    (decrypt host registry secure keyId iv mode pattern subSamples source offset
        destination).registry = registry ∧
      (∀ key,
        Registry.find (decrypt host registry secure keyId iv mode pattern subSamples source
          offset destination).registry key = Registry.find registry key) ∧
      (∀ key, Registry.find registry key = none →
        Registry.find (Registry.index registry key).2 key = some none) ∧
      (∀ key, Registry.find registry key ≠ none → (Registry.index registry key).2 = registry) := by
  have hreg : (decrypt host registry secure keyId iv mode pattern subSamples source offset
      destination).registry = registry := by
    rcases decrypt_shape host registry secure keyId iv mode pattern subSamples source offset
      destination with ⟨_, e⟩ | ⟨_, e⟩ | ⟨_, e⟩ <;> rw [e] <;> rfl
  refine ⟨hreg, fun key => by rw [hreg], ?_, ?_⟩
  · intro key hk
    simp [Registry.index, hk, Registry.find_assign_self]
  · intro key hk
    obtain ⟨v, _, hv⟩ := Registry.index_of_find_ne_none hk
    rw [hv]

/-- C9 (witness): an indexed read of the unbound key 2 would add a null entry
to the sample registry, and a read of the bound key 1 does not change it. -/
theorem decrypt_registry_unchanged_witness :
    Registry.find sampleRegistry 2 = none ∧
      Registry.find (Registry.index sampleRegistry 2).2 2 = some none ∧
      (Registry.index sampleRegistry 1).2 = sampleRegistry :=
  ⟨by decide,
    (decrypt_registry_unchanged (sampleHost 64) sampleRegistry false [] [] .AES_CTR ⟨0, 0⟩
      [⟨100, 200⟩] ⟨1, 0, 300⟩ 0 ⟨.SHARED_MEMORY, ⟨1, 0, 300⟩, 0⟩).2.2.1 2 (by decide),
    (decrypt_registry_unchanged (sampleHost 64) sampleRegistry false [] [] .AES_CTR ⟨0, 0⟩
      [⟨100, 200⟩] ⟨1, 0, 300⟩ 0 ⟨.SHARED_MEMORY, ⟨1, 0, 300⟩, 0⟩).2.2.2 1 (by decide)⟩

/-- C10: `setSharedBufferBase(base, id)` is total and overwrites: afterwards the
entry of `id` is exactly the result of mapping `base` (a mapped region, or the
recorded null value when mapping failed), whatever was bound to `id` before,
and the entry of every other bufferId is unchanged. -/
theorem setSharedBufferBase_overwrites {HidlMemory : Type}
    (mapMemory : HidlMemory → Option IMemory) (registry : Registry) (base : HidlMemory)
    (bufferId : Nat) :
    Registry.find (setSharedBufferBase mapMemory registry base bufferId) bufferId =
        some (mapMemory base) ∧
      ∀ other, other ≠ bufferId →
        Registry.find (setSharedBufferBase mapMemory registry base bufferId) other =
          Registry.find registry other := by
  unfold setSharedBufferBase
  exact ⟨Registry.find_assign_self _ _ _, fun other hne =>
    Registry.find_assign_of_ne _ _ hne⟩

/-- C10 (witness): re-binding buffer 1 with a memory that fails to map records
the null value for buffer 1 and leaves buffer 2 as it was. -/
theorem setSharedBufferBase_overwrites_witness :
    Registry.find (setSharedBufferBase sampleMapMemory [(1, some ⟨4096, 1024⟩), (2, some ⟨8192, 64⟩)]
        0 1) 1 = some none ∧
      Registry.find (setSharedBufferBase sampleMapMemory
        [(1, some ⟨4096, 1024⟩), (2, some ⟨8192, 64⟩)] 0 1) 2 = some (some ⟨8192, 64⟩) :=
  ⟨(setSharedBufferBase_overwrites sampleMapMemory [(1, some ⟨4096, 1024⟩), (2, some ⟨8192, 64⟩)]
      0 1).1,
    (setSharedBufferBase_overwrites sampleMapMemory [(1, some ⟨4096, 1024⟩), (2, some ⟨8192, 64⟩)]
      0 1).2 2 (by decide)⟩

/-! ## Lemmas for the dispatch and the registry, second part -/

theorem Registry.assign_assign (m : Registry) (key : Nat) (v : Option IMemory) :
    Registry.assign (Registry.assign m key v) key v = Registry.assign m key v := by
  induction m with
  | nil => simp [Registry.assign]
  | cons e rest ih =>
    obtain ⟨k, old⟩ := e
    by_cases hk : k = key
    · simp [Registry.assign, hk]
    · simp [Registry.assign, hk, ih]

theorem dispatch_engineCalls (host : Host) (registry : Registry) (args : LegacyDecryptArgs) :
    (dispatch host registry args).engineCalls = [args] := rfl

theorem toUInt32_of_nonneg_of_lt {z : Int} (h0 : 0 ≤ z) (hlt : z < 2 ^ 32) :
    toUInt32 z = z.toNat := by
  unfold toUInt32
  rw [Int.emod_eq_of_lt h0 hlt]

theorem toStatusT_zero : toStatusT 0 = 0 := by decide

theorem toStatusT_toUInt32_of_neg {z : Int} (hneg : z < 0) (hlo : -2 ^ 31 ≤ z) :
    toStatusT (toUInt32 z) = z := by
  have hmod : z % 2 ^ 32 = z + 2 ^ 32 := by
    have h1 : (z + 2 ^ 32) % 2 ^ 32 = z % 2 ^ 32 := by simp
    rw [← h1]
    exact Int.emod_eq_of_lt (by omega) (by omega)
  have hnat : ((toUInt32 z : Nat) : Int) = z + 2 ^ 32 := by
    unfold toUInt32
    rw [hmod, Int.toNat_of_nonneg (by omega)]
  have hlt : toUInt32 z < 2 ^ 32 := by omega
  have hge : ¬ toUInt32 z < 2 ^ 31 := by omega
  unfold toStatusT
  rw [Nat.mod_eq_of_lt hlt, if_neg hge]
  omega

/-- A call that reaches the legacy plugin is one dispatch on the unchanged
registry, with the arguments built from the caller's values: the source pointer
is the base of the source region plus both offsets, the subsamples are the copy
of the caller's list, and the destination pointer is the base of the
destination region plus the descriptor offset in pointer arithmetic, or the
native handle. -/
theorem decrypt_engineInvoked_args (host : Host) (registry : Registry) (secure : Bool)
    (keyId iv : List Nat) (mode : Mode) (pattern : Pattern) (subSamples : List SubSample)
    (source : SharedBuffer) (offset : Nat) (destination : DestinationBuffer)
    (h : (decrypt host registry secure keyId iv mode pattern subSamples source offset
      destination).engineInvoked) :
    ∃ sourceBase destPtr,
      Registry.find registry source.bufferId = some (some sourceBase) ∧
      ((destination.type = .SHARED_MEMORY ∧
          ∃ destBase,
            Registry.find registry destination.nonsecureMemory.bufferId = some (some destBase) ∧
            destPtr = pointerAdd host.sizeBits destBase.getPointer
              destination.nonsecureMemory.offset) ∨
        (destination.type = .NATIVE_HANDLE ∧ secure = true ∧
          destPtr = destination.secureMemory)) ∧
      decrypt host registry secure keyId iv mode pattern subSamples source offset destination =
        dispatch host registry
          ⟨secure, keyId, iv, toLegacyMode mode, ⟨pattern.encryptBlocks, pattern.skipBlocks⟩,
            sourceBase.getPointer + source.offset + offset, legacyCopy subSamples,
            subSamples.length, destPtr⟩ := by
  obtain ⟨sourceBase, destSize, legacy, hs, hl, _, hcase⟩ :=
    decrypt_engineInvoked_inv host registry secure keyId iv mode pattern subSamples source
      offset destination h
  have hleg := (sizeLoop_ok_inv hl).2.2
  subst hleg
  rcases hcase with ⟨hty, destBase, hd, _, _, e⟩ | ⟨hty, hsec, e⟩
  · exact ⟨sourceBase, _, hs, Or.inl ⟨hty, destBase, hd, rfl⟩, e⟩
  · exact ⟨sourceBase, _, hs, Or.inr ⟨hty, hsec, rfl⟩, e⟩

theorem decrypt_source_null (host : Host) (registry : Registry) (secure : Bool)
    (keyId iv : List Nat) (mode : Mode) (pattern : Pattern) (subSamples : List SubSample)
    (source : SharedBuffer) (offset : Nat) (destination : DestinationBuffer)
    (hs : Registry.find registry source.bufferId = some none)
    (hsum : subSampleSum subSamples < 2 ^ host.sizeBits) :
    ∃ message,
      decrypt host registry secure keyId iv mode pattern subSamples source offset destination =
        reject registry .ERROR_DRM_CANNOT_HANDLE message := by
  have hl := sizeLoop_ok host.sizeBits subSamples 0 [] (by simpa using hsum)
  by_cases hty : destination.type = .SHARED_MEMORY
  · cases hd : Registry.find registry destination.nonsecureMemory.bufferId with
    | none =>
      exact ⟨_, decrypt_dest_absent _ _ _ _ _ _ _ _ _ _ _ (by simp [hs]) hty hd⟩
    | some db =>
      rw [decrypt_shared host registry secure keyId iv mode pattern subSamples source offset
        destination _ db hs hty hd, hl]
      exact ⟨"source is a nullptr", rfl⟩
  · rw [decrypt_not_shared host registry secure keyId iv mode pattern subSamples source offset
      destination _ hs hty, hl]
    exact ⟨"source is a nullptr", rfl⟩

/-- Once the source has passed its checks, a shared-memory destination that
fails the destination bounds check as the code computes it is rejected with
cannot-handle, whatever the subsample total is. -/
theorem decrypt_destination_out_of_bounds (host : Host) (registry : Registry) (secure : Bool)
    (keyId iv : List Nat) (mode : Mode) (pattern : Pattern) (subSamples : List SubSample)
    (source : SharedBuffer) (offset : Nat) (destination : DestinationBuffer)
    (sourceBase destBase : IMemory)
    (hs : Registry.find registry source.bufferId = some (some sourceBase))
    (hsum : subSampleSum subSamples < 2 ^ host.sizeBits)
    (hb : sourceOutOfBounds host.sizeBits source offset sourceBase = false)
    (hty : destination.type = .SHARED_MEMORY)
    (hd : Registry.find registry destination.nonsecureMemory.bufferId = some (some destBase))
    (hdb : destOutOfBounds destination.nonsecureMemory destBase = true) :
    decrypt host registry secure keyId iv mode pattern subSamples source offset destination =
      reject registry .ERROR_DRM_CANNOT_HANDLE "invalid buffer size" := by
  have hl := sizeLoop_ok host.sizeBits subSamples 0 [] (by simpa using hsum)
  rw [decrypt_shared host registry secure keyId iv mode pattern subSamples source offset
    destination _ _ hs hty hd, hl]
  simp [hb, hdb]

theorem destOutOfBounds_eq_false_of_le {destBuffer : SharedBuffer} {destBase : IMemory}
    (hfit : destBase.getSize < 2 ^ 64)
    (hle : destBuffer.offset + destBuffer.size ≤ destBase.getSize) :
    destOutOfBounds destBuffer destBase = false := by
  unfold destOutOfBounds
  have hlt : destBuffer.offset + destBuffer.size < 2 ^ 64 := by omega
  rw [Nat.mod_eq_of_lt hlt]
  simp
  omega

theorem pointerAdd_of_lt {bits base offset : Nat} (h : base + offset < 2 ^ bits) :
    pointerAdd bits base offset = base + offset := by
  unfold pointerAdd
  exact Nat.mod_eq_of_lt h

/-- The pointers of a call that reaches the legacy plugin with `args`: the
source pointer is the base of the source region plus `source.offset` plus
`offset`; with a native-handle destination the destination pointer is the
caller's handle; with a shared-memory destination it is the base of the
destination region plus `destination.offset` in pointer arithmetic, which is
the exact sum whenever that sum is a valid address. -/
theorem decrypt_pointers_of_call (host : Host) (registry : Registry) (secure : Bool)
    (keyId iv : List Nat) (mode : Mode) (pattern : Pattern) (subSamples : List SubSample)
    (source : SharedBuffer) (offset : Nat) (destination : DestinationBuffer)
    (args : LegacyDecryptArgs)
    (hcall : (decrypt host registry secure keyId iv mode pattern subSamples source offset
      destination).engineCalls = [args]) :
    (∃ sourceBase, Registry.find registry source.bufferId = some (some sourceBase) ∧
        args.srcPtr = sourceBase.getPointer + source.offset + offset) ∧
      (destination.type = .SHARED_MEMORY →
        ∃ destBase,
          Registry.find registry destination.nonsecureMemory.bufferId = some (some destBase) ∧
          args.destPtr =
            pointerAdd host.sizeBits destBase.getPointer destination.nonsecureMemory.offset ∧
          (destBase.getPointer + destination.nonsecureMemory.offset < 2 ^ host.sizeBits →
            args.destPtr = destBase.getPointer + destination.nonsecureMemory.offset)) ∧
      (destination.type = .NATIVE_HANDLE → args.destPtr = destination.secureMemory) := by
  have hinv : (decrypt host registry secure keyId iv mode pattern subSamples source offset
      destination).engineInvoked := by
    simp [Outcome.engineInvoked, hcall]
  obtain ⟨sourceBase, destPtr, hs, hdest, e⟩ :=
    decrypt_engineInvoked_args host registry secure keyId iv mode pattern subSamples source
      offset destination hinv
  rw [e, dispatch_engineCalls] at hcall
  have hargs := List.head_eq_of_cons_eq hcall
  subst hargs
  refine ⟨⟨sourceBase, hs, rfl⟩, ?_, ?_⟩
  · intro hty
    rcases hdest with ⟨_, destBase, hd, hp⟩ | ⟨hn, _, _⟩
    · exact ⟨destBase, hd, hp, fun hlt => by rw [← pointerAdd_of_lt hlt]; exact hp⟩
    · rw [hty] at hn; cases hn
  · intro hty
    rcases hdest with ⟨hsh, _⟩ | ⟨_, _, hp⟩
    · rw [hty] at hsh; cases hsh
    · exact hp

/-! ## The claims, second part -/

/-- C11: binding is idempotent. Storing the same region under the same bufferId
twice gives the same registry as storing it once, both for the assignment
itself and for `setSharedBufferBase` with a mapper that returns the same region
for the same memory; hence every later `decrypt` call has the same outcome
(registry, calls of the legacy plugin with their arguments, and the callback
with status, bytesWritten and message) in both cases. -/
theorem setSharedBufferBase_idempotent {HidlMemory : Type}
    (mapMemory : HidlMemory → Option IMemory) (registry : Registry) (base : HidlMemory)
    (bufferId : Nat) :
    (∀ region : Option IMemory,
        Registry.assign (Registry.assign registry bufferId region) bufferId region =
          Registry.assign registry bufferId region) ∧
      setSharedBufferBase mapMemory (setSharedBufferBase mapMemory registry base bufferId) base
          bufferId =
        setSharedBufferBase mapMemory registry base bufferId ∧
      ∀ (host : Host) (secure : Bool) (keyId iv : List Nat) (mode : Mode) (pattern : Pattern)
        (subSamples : List SubSample) (source : SharedBuffer) (offset : Nat)
        (destination : DestinationBuffer),
        decrypt host
            (setSharedBufferBase mapMemory (setSharedBufferBase mapMemory registry base bufferId)
              base bufferId)
            secure keyId iv mode pattern subSamples source offset destination =
          decrypt host (setSharedBufferBase mapMemory registry base bufferId) secure keyId iv mode
            pattern subSamples source offset destination := by
  have hset : setSharedBufferBase mapMemory (setSharedBufferBase mapMemory registry base bufferId)
      base bufferId = setSharedBufferBase mapMemory registry base bufferId := by
    unfold setSharedBufferBase
    exact Registry.assign_assign _ _ _
  refine ⟨fun region => Registry.assign_assign _ _ _, hset, ?_⟩
  intro host secure keyId iv mode pattern subSamples source offset destination
  rw [hset]

/-- C12: on every path (success, each validation failure, failure in the
legacy plugin) the completion callback is invoked exactly once: the list of
callback invocations of a call always has exactly one element. -/
theorem decrypt_callback_exactly_once (host : Host) (registry : Registry) (secure : Bool)
    (keyId iv : List Nat) (mode : Mode) (pattern : Pattern) (subSamples : List SubSample)
    (source : SharedBuffer) (offset : Nat) (destination : DestinationBuffer) :
    (decrypt host registry secure keyId iv mode pattern subSamples source offset
        destination).callbacks.length = 1 ∧
      ∃ callback,
        (decrypt host registry secure keyId iv mode pattern subSamples source offset
          destination).callbacks = [callback] := by
  rcases decrypt_shape host registry secure keyId iv mode pattern subSamples source offset
    destination with ⟨_, e⟩ | ⟨_, e⟩ | ⟨_, e⟩ <;> rw [e] <;> exact ⟨rfl, _, rfl⟩

/-- C13 (counterexample): on a 64-bit build the legacy plugin can return a count
that does not fit the 32-bit `bytesWritten`: for the subsample list
`{0xFFFFFFFF, 0xFFFFFFFF}` twice it returns 17179869180, and `decrypt` reports
status OK with bytesWritten 4294967292. -/
theorem decrypt_bytesWritten_truncated_64 :
    (sampleHost 64).legacyDecrypt
        ⟨true, [], [], .kMode_AES_CTR, ⟨0, 0⟩, 4096,
          [⟨0xFFFFFFFF, 0xFFFFFFFF⟩, ⟨0xFFFFFFFF, 0xFFFFFFFF⟩], 2, 77⟩ = (17179869180, "") ∧
      decrypt (sampleHost 64) sampleRegistry true [] [] .AES_CTR ⟨0, 0⟩
          [⟨0xFFFFFFFF, 0xFFFFFFFF⟩, ⟨0xFFFFFFFF, 0xFFFFFFFF⟩] ⟨1, 0, 0⟩ 0
          ⟨.NATIVE_HANDLE, ⟨0, 0, 0⟩, 77⟩ =
        { registry := sampleRegistry
          engineCalls :=
            [⟨true, [], [], .kMode_AES_CTR, ⟨0, 0⟩, 4096,
              [⟨0xFFFFFFFF, 0xFFFFFFFF⟩, ⟨0xFFFFFFFF, 0xFFFFFFFF⟩], 2, 77⟩]
          callbacks := [⟨.OK, 4294967292, ""⟩] } := by
  refine ⟨by decide, by decide⟩

/-- C13 (amended): when the legacy plugin is called with `args` and returns a
non-negative count `n` that fits the 32-bit `bytesWritten` (`n < 2 ^ 32`), the
call reports status OK (the conversion of `android::OK`) with bytesWritten `n`;
when it returns a negative code in the range of `status_t`, the call reports
the status converted from that code with bytesWritten 0; in both cases the
detail message is the one the legacy plugin supplied. -/
theorem decrypt_result_mapping (host : Host) (registry : Registry) (secure : Bool)
    (keyId iv : List Nat) (mode : Mode) (pattern : Pattern) (subSamples : List SubSample)
    (source : SharedBuffer) (offset : Nat) (destination : DestinationBuffer)
    (args : LegacyDecryptArgs)
    (hcall : (decrypt host registry secure keyId iv mode pattern subSamples source offset
      destination).engineCalls = [args]) :
    (0 ≤ (host.legacyDecrypt args).1 → (host.legacyDecrypt args).1 < 2 ^ 32 →
        host.convertsOK →
        (decrypt host registry secure keyId iv mode pattern subSamples source offset
          destination).callbacks =
          [⟨.OK, ((host.legacyDecrypt args).1).toNat, (host.legacyDecrypt args).2⟩]) ∧
      ((host.legacyDecrypt args).1 < 0 → -2 ^ 31 ≤ (host.legacyDecrypt args).1 →
        (decrypt host registry secure keyId iv mode pattern subSamples source offset
          destination).callbacks =
          [⟨host.toStatus (host.legacyDecrypt args).1, 0, (host.legacyDecrypt args).2⟩]) := by
  have hinv : (decrypt host registry secure keyId iv mode pattern subSamples source offset
      destination).engineInvoked := by
    simp [Outcome.engineInvoked, hcall]
  obtain ⟨_, _, _, _, e⟩ :=
    decrypt_engineInvoked_args host registry secure keyId iv mode pattern subSamples source
      offset destination hinv
  rw [e, dispatch_engineCalls] at hcall
  have hargs := List.head_eq_of_cons_eq hcall
  rw [e, hargs]
  constructor
  · intro h0 hlt hok
    have hconv : host.toStatus 0 = .OK := hok
    simp [dispatch, h0, toStatusT_zero, hconv, toUInt32_of_nonneg_of_lt h0 hlt]
  · intro hneg hlo
    have hn : ¬ 0 ≤ (host.legacyDecrypt args).1 := by omega
    simp [dispatch, hn, toStatusT_toUInt32_of_neg hneg hlo]

/-- C13 (witness): in scenario A the legacy plugin returns 300 and the call
reports status OK with bytesWritten 300; with a legacy plugin that returns
`-2000` the call reports the conversion of `-2000` with bytesWritten 0 and the
message of the plugin. -/
theorem decrypt_result_mapping_witness :
    (decrypt (sampleHost 64) sampleRegistry false [] [] .AES_CTR ⟨0, 0⟩ [⟨100, 200⟩]
        ⟨1, 0, 300⟩ 0 ⟨.SHARED_MEMORY, ⟨1, 0, 300⟩, 0⟩).callbacks = [⟨.OK, 300, ""⟩] ∧
      (decrypt (sampleFailingHost 64) sampleRegistry false [] [] .AES_CTR ⟨0, 0⟩ [⟨100, 200⟩]
        ⟨1, 0, 300⟩ 0 ⟨.SHARED_MEMORY, ⟨1, 0, 300⟩, 0⟩).callbacks =
        [⟨(sampleFailingHost 64).toStatus (-2000), 0, "decrypt failed"⟩] :=
  ⟨(decrypt_result_mapping (sampleHost 64) sampleRegistry false [] [] .AES_CTR ⟨0, 0⟩
      [⟨100, 200⟩] ⟨1, 0, 300⟩ 0 ⟨.SHARED_MEMORY, ⟨1, 0, 300⟩, 0⟩
      ⟨false, [], [], .kMode_AES_CTR, ⟨0, 0⟩, 4096, [⟨100, 200⟩], 1, 4096⟩ (by decide)).1
      (by decide) (by decide) rfl,
    (decrypt_result_mapping (sampleFailingHost 64) sampleRegistry false [] [] .AES_CTR ⟨0, 0⟩
      [⟨100, 200⟩] ⟨1, 0, 300⟩ 0 ⟨.SHARED_MEMORY, ⟨1, 0, 300⟩, 0⟩
      ⟨false, [], [], .kMode_AES_CTR, ⟨0, 0⟩, 4096, [⟨100, 200⟩], 1, 4096⟩ (by decide)).2
      (by decide) (by decide)⟩

/-- C14: with a shared-memory destination the validation does not look at the
secure flag: the call with `secure = true` and the call with `secure = false`
on the same registry and the same other arguments are either both rejected with
the same status and message, or both dispatched to the legacy plugin with the
same mode, pattern, source pointer, subsamples and destination pointer, the
forwarded secure flag being the only difference. -/
theorem decrypt_shared_secure_independent (host : Host) (registry : Registry)
    (keyId iv : List Nat) (mode : Mode) (pattern : Pattern) (subSamples : List SubSample)
    (source : SharedBuffer) (offset : Nat) (destination : DestinationBuffer)
    (hty : destination.type = .SHARED_MEMORY) :
    (∃ status message,
        decrypt host registry true keyId iv mode pattern subSamples source offset destination =
          reject registry status message ∧
        decrypt host registry false keyId iv mode pattern subSamples source offset destination =
          reject registry status message) ∨
      (∃ srcPtr legacy destPtr,
        decrypt host registry true keyId iv mode pattern subSamples source offset destination =
          dispatch host registry
            ⟨true, keyId, iv, toLegacyMode mode, ⟨pattern.encryptBlocks, pattern.skipBlocks⟩,
              srcPtr, legacy, subSamples.length, destPtr⟩ ∧
        decrypt host registry false keyId iv mode pattern subSamples source offset destination =
          dispatch host registry
            ⟨false, keyId, iv, toLegacyMode mode, ⟨pattern.encryptBlocks, pattern.skipBlocks⟩,
              srcPtr, legacy, subSamples.length, destPtr⟩) := by
  cases hs : Registry.find registry source.bufferId with
  | none =>
    exact Or.inl ⟨_, _, decrypt_source_absent _ _ _ _ _ _ _ _ _ _ _ hs,
      decrypt_source_absent _ _ _ _ _ _ _ _ _ _ _ hs⟩
  | some sb =>
    cases hd : Registry.find registry destination.nonsecureMemory.bufferId with
    | none =>
      exact Or.inl ⟨_, _, decrypt_dest_absent _ _ _ _ _ _ _ _ _ _ _ (by simp [hs]) hty hd,
        decrypt_dest_absent _ _ _ _ _ _ _ _ _ _ _ (by simp [hs]) hty hd⟩
    | some db =>
      rw [decrypt_shared host registry true keyId iv mode pattern subSamples source offset
          destination sb db hs hty hd,
        decrypt_shared host registry false keyId iv mode pattern subSamples source offset
          destination sb db hs hty hd]
      cases sizeLoop host.sizeBits subSamples 0 [] with
      | error message => exact Or.inl ⟨_, _, rfl, rfl⟩
      | ok p =>
        obtain ⟨destSize, legacy⟩ := p
        cases sb with
        | none => exact Or.inl ⟨_, _, rfl, rfl⟩
        | some sourceBase =>
          cases hb : sourceOutOfBounds host.sizeBits source offset sourceBase with
          | true =>
            exact Or.inl ⟨.ERROR_DRM_CANNOT_HANDLE, "invalid buffer size", by simp [hb],
              by simp [hb]⟩
          | false =>
            cases db with
            | none =>
              exact Or.inl ⟨.ERROR_DRM_CANNOT_HANDLE, "destination is a nullptr", by simp [hb],
                by simp [hb]⟩
            | some destBase =>
              cases hdb : destOutOfBounds destination.nonsecureMemory destBase with
              | true =>
                exact Or.inl ⟨.ERROR_DRM_CANNOT_HANDLE, "invalid buffer size", by simp [hb, hdb],
                  by simp [hb, hdb]⟩
              | false =>
                by_cases hsz : destSize > destination.nonsecureMemory.size
                · exact Or.inl ⟨.BAD_VALUE, "subsample sum too large", by simp [hb, hdb, hsz],
                    by simp [hb, hdb, hsz]⟩
                · exact Or.inr ⟨_, _, _, by simp [hb, hdb, hsz]; rfl, by simp [hb, hdb, hsz]⟩

/-- C14 (witness): scenario A is dispatched with the same pointers under both
values of the secure flag. -/
theorem decrypt_shared_secure_independent_witness :
    (∃ status message,
        decrypt (sampleHost 64) sampleRegistry true [] [] .AES_CTR ⟨0, 0⟩ [⟨100, 200⟩]
            ⟨1, 0, 300⟩ 0 ⟨.SHARED_MEMORY, ⟨1, 0, 300⟩, 0⟩ =
          reject sampleRegistry status message ∧
        decrypt (sampleHost 64) sampleRegistry false [] [] .AES_CTR ⟨0, 0⟩ [⟨100, 200⟩]
            ⟨1, 0, 300⟩ 0 ⟨.SHARED_MEMORY, ⟨1, 0, 300⟩, 0⟩ =
          reject sampleRegistry status message) ∨
      (∃ srcPtr legacy destPtr,
        decrypt (sampleHost 64) sampleRegistry true [] [] .AES_CTR ⟨0, 0⟩ [⟨100, 200⟩]
            ⟨1, 0, 300⟩ 0 ⟨.SHARED_MEMORY, ⟨1, 0, 300⟩, 0⟩ =
          dispatch (sampleHost 64) sampleRegistry
            ⟨true, [], [], .kMode_AES_CTR, ⟨0, 0⟩, srcPtr, legacy, 1, destPtr⟩ ∧
        decrypt (sampleHost 64) sampleRegistry false [] [] .AES_CTR ⟨0, 0⟩ [⟨100, 200⟩]
            ⟨1, 0, 300⟩ 0 ⟨.SHARED_MEMORY, ⟨1, 0, 300⟩, 0⟩ =
          dispatch (sampleHost 64) sampleRegistry
            ⟨false, [], [], .kMode_AES_CTR, ⟨0, 0⟩, srcPtr, legacy, 1, destPtr⟩) :=
  decrypt_shared_secure_independent (sampleHost 64) sampleRegistry [] [] .AES_CTR ⟨0, 0⟩
    [⟨100, 200⟩] ⟨1, 0, 300⟩ 0 ⟨.SHARED_MEMORY, ⟨1, 0, 300⟩, 0⟩ rfl

/-- C15: a valid request is dispatched exactly once. When the source bufferId is
bound to a mapped region (whose size fits `size_t`), the subsample sum does not
overflow, `source.offset + offset + source.size` is at most the size of the
source region, and the destination is either shared memory bound to a mapped
region with `destination.offset + destination.size` at most the size of that
region and the subsample sum at most `destination.size`, or a native handle on
a secure call, then the call is one dispatch to the legacy plugin: exactly one
legacy call, and the callback carries the mapped result of that call. And every
call is either a rejection with no legacy call or one dispatch. -/
theorem decrypt_valid_request_dispatched_once :
    (∀ (host : Host) (registry : Registry) (secure : Bool) (keyId iv : List Nat) (mode : Mode)
      (pattern : Pattern) (subSamples : List SubSample) (source : SharedBuffer) (offset : Nat)
      (destination : DestinationBuffer) (sourceBase : IMemory),
      Registry.find registry source.bufferId = some (some sourceBase) →
      sourceBase.getSize < 2 ^ host.sizeBits →
      subSampleSum subSamples < 2 ^ host.sizeBits →
      source.offset + offset + source.size ≤ sourceBase.getSize →
      ((destination.type = .SHARED_MEMORY ∧
          ∃ destBase,
            Registry.find registry destination.nonsecureMemory.bufferId = some (some destBase) ∧
            destBase.getSize < 2 ^ 64 ∧
            destination.nonsecureMemory.offset + destination.nonsecureMemory.size ≤
              destBase.getSize ∧
            subSampleSum subSamples ≤ destination.nonsecureMemory.size) ∨
        (destination.type = .NATIVE_HANDLE ∧ secure = true)) →
      ∃ destPtr,
        decrypt host registry secure keyId iv mode pattern subSamples source offset destination =
          dispatch host registry
            ⟨secure, keyId, iv, toLegacyMode mode, ⟨pattern.encryptBlocks, pattern.skipBlocks⟩,
              sourceBase.getPointer + source.offset + offset, legacyCopy subSamples,
              subSamples.length, destPtr⟩ ∧
        (decrypt host registry secure keyId iv mode pattern subSamples source offset
          destination).engineCalls.length = 1) ∧
    (∀ (host : Host) (registry : Registry) (secure : Bool) (keyId iv : List Nat) (mode : Mode)
      (pattern : Pattern) (subSamples : List SubSample) (source : SharedBuffer) (offset : Nat)
      (destination : DestinationBuffer),
      (∃ status message,
          decrypt host registry secure keyId iv mode pattern subSamples source offset
            destination = reject registry status message ∧
          (decrypt host registry secure keyId iv mode pattern subSamples source offset
            destination).engineCalls = []) ∨
        (∃ args,
          decrypt host registry secure keyId iv mode pattern subSamples source offset
            destination = dispatch host registry args ∧
          (decrypt host registry secure keyId iv mode pattern subSamples source offset
            destination).engineCalls = [args])) := by
  constructor
  · intro host registry secure keyId iv mode pattern subSamples source offset destination
      sourceBase hs hfit hsum hsrc hdest
    have hl := sizeLoop_ok host.sizeBits subSamples 0 [] (by simpa using hsum)
    have hb : sourceOutOfBounds host.sizeBits source offset sourceBase = false := by
      rw [sourceOutOfBounds_eq_false_iff]
      refine ⟨?_, ?_, hsrc⟩ <;> omega
    rcases hdest with ⟨hty, destBase, hd, hdfit, hdle, htot⟩ | ⟨hty, hsec⟩
    · have hdb := destOutOfBounds_eq_false_of_le hdfit hdle
      have hsz : ¬ 0 + subSampleSum subSamples > destination.nonsecureMemory.size := by omega
      refine ⟨pointerAdd host.sizeBits destBase.getPointer destination.nonsecureMemory.offset,
        ?_⟩
      rw [decrypt_shared host registry secure keyId iv mode pattern subSamples source offset
        destination _ _ hs hty hd, hl]
      simp only [hb, hdb, hsz, Bool.false_eq_true, if_false, List.nil_append]
      exact ⟨trivial, rfl⟩
    · refine ⟨destination.secureMemory, ?_⟩
      rw [decrypt_not_shared host registry secure keyId iv mode pattern subSamples source offset
        destination _ hs (by simp [hty]), hl]
      simp only [hb, hty, hsec, Bool.false_eq_true, if_false, if_true, List.nil_append,
        reduceCtorEq]
      exact ⟨trivial, rfl⟩
  · intro host registry secure keyId iv mode pattern subSamples source offset destination
    rcases decrypt_shape host registry secure keyId iv mode pattern subSamples source offset
      destination with ⟨m, e⟩ | ⟨m, e⟩ | ⟨args, e⟩
    · exact Or.inl ⟨_, m, e, by rw [e]; rfl⟩
    · exact Or.inl ⟨_, m, e, by rw [e]; rfl⟩
    · exact Or.inr ⟨args, e, by rw [e]; rfl⟩

/-- C15 (witness): scenario A satisfies every condition and is dispatched once,
with source and destination pointer 4096. -/
theorem decrypt_valid_request_dispatched_once_witness :
    ∃ destPtr,
      decrypt (sampleHost 64) sampleRegistry false [] [] .AES_CTR ⟨0, 0⟩ [⟨100, 200⟩]
          ⟨1, 0, 300⟩ 0 ⟨.SHARED_MEMORY, ⟨1, 0, 300⟩, 0⟩ =
        dispatch (sampleHost 64) sampleRegistry
          ⟨false, [], [], .kMode_AES_CTR, ⟨0, 0⟩, 4096 + 0 + 0, [⟨100, 200⟩], 1, destPtr⟩ ∧
      (decrypt (sampleHost 64) sampleRegistry false [] [] .AES_CTR ⟨0, 0⟩ [⟨100, 200⟩]
        ⟨1, 0, 300⟩ 0 ⟨.SHARED_MEMORY, ⟨1, 0, 300⟩, 0⟩).engineCalls.length = 1 :=
  decrypt_valid_request_dispatched_once.1 (sampleHost 64) sampleRegistry false [] [] .AES_CTR
    ⟨0, 0⟩ [⟨100, 200⟩] ⟨1, 0, 300⟩ 0 ⟨.SHARED_MEMORY, ⟨1, 0, 300⟩, 0⟩ ⟨4096, 1024⟩
    (by decide) (by decide) (by decide) (by decide)
    (Or.inl ⟨rfl, ⟨4096, 1024⟩, by decide, by decide, by decide, by decide⟩)

/-- C16 (counterexample): on a 32-bit build, with buffer 1 bound but unavailable
(null), and also with buffer 1 mapped and the source range out of bounds, a call
whose subsample list overflows the size loop is rejected with BAD_VALUE, not
cannot-handle: the size loop runs before the source null and bounds checks. -/
theorem decrypt_size_overflow_before_source_checks :
    decrypt (sampleHost 32) [(1, none)] true [] [] .AES_CTR ⟨0, 0⟩
          [⟨0xFFFFFFFF, 0xFFFFFFFF⟩] ⟨1, 0, 0⟩ 0 ⟨.NATIVE_HANDLE, ⟨0, 0, 0⟩, 77⟩ =
        reject [(1, none)] .BAD_VALUE "subsample encrypted size overflow" ∧
      decrypt (sampleHost 32) sampleRegistry true [] [] .AES_CTR ⟨0, 0⟩
          [⟨0xFFFFFFFF, 0xFFFFFFFF⟩] ⟨1, 1000, 100⟩ 0 ⟨.NATIVE_HANDLE, ⟨0, 0, 0⟩, 77⟩ =
        reject sampleRegistry .BAD_VALUE "subsample encrypted size overflow" := by
  refine ⟨by decide, by decide⟩

/-- C16 (amended): for a call whose source bufferId is bound but unavailable, or
bound to a mapped region with `source.offset + offset + source.size` overflowing
`size_t` or exceeding the size of the region, the result is cannot-handle for
every subsample list whose accumulated size does not overflow; when the
accumulated size overflows, the size loop, which runs before the source null and
bounds checks, decides: the result is BAD_VALUE if the destination is not shared
memory or its bufferId is bound, and cannot-handle if the destination is shared
memory with an unbound bufferId. -/
theorem decrypt_invalid_source (host : Host) (registry : Registry) (secure : Bool)
    (keyId iv : List Nat) (mode : Mode) (pattern : Pattern) (subSamples : List SubSample)
    (source : SharedBuffer) (offset : Nat) (destination : DestinationBuffer)
    (hsrc : Registry.find registry source.bufferId = some none ∨
      ∃ sourceBase, Registry.find registry source.bufferId = some (some sourceBase) ∧
        (2 ^ host.sizeBits ≤ source.offset + offset + source.size ∨
          sourceBase.getSize < source.offset + offset + source.size)) :
    (subSampleSum subSamples < 2 ^ host.sizeBits →
        ∃ message,
          decrypt host registry secure keyId iv mode pattern subSamples source offset
            destination = reject registry .ERROR_DRM_CANNOT_HANDLE message) ∧
      (2 ^ host.sizeBits - 1 < subSampleSum subSamples →
        (destination.type = .SHARED_MEMORY →
          Registry.find registry destination.nonsecureMemory.bufferId ≠ none) →
        ∃ message,
          decrypt host registry secure keyId iv mode pattern subSamples source offset
            destination = reject registry .BAD_VALUE message) ∧
      (destination.type = .SHARED_MEMORY →
        Registry.find registry destination.nonsecureMemory.bufferId = none →
        ∃ message,
          decrypt host registry secure keyId iv mode pattern subSamples source offset
            destination = reject registry .ERROR_DRM_CANNOT_HANDLE message) := by
  have hfound : Registry.find registry source.bufferId ≠ none := by
    rcases hsrc with h | ⟨_, h, _⟩ <;> simp [h]
  have hpos : 0 < 2 ^ host.sizeBits := Nat.pos_pow_of_pos _ (by decide)
  refine ⟨?_, ?_, ?_⟩
  · intro hsum
    rcases hsrc with hs | ⟨sourceBase, hs, hbad⟩
    · exact decrypt_source_null host registry secure keyId iv mode pattern subSamples source
        offset destination hs hsum
    · apply decrypt_source_out_of_bounds host registry secure keyId iv mode pattern subSamples
        source offset destination sourceBase hs hsum
      cases hb : sourceOutOfBounds host.sizeBits source offset sourceBase with
      | true => rfl
      | false =>
        have := (sourceOutOfBounds_eq_false_iff _ _ _ _).mp hb
        omega
  · intro hover hd
    rcases sizeLoop_error host.sizeBits subSamples 0 [] hpos (by omega) with e | e
    · exact ⟨_, decrypt_size_overflow host registry secure keyId iv mode pattern subSamples
        source offset destination _ hfound hd e⟩
    · exact ⟨_, decrypt_size_overflow host registry secure keyId iv mode pattern subSamples
        source offset destination _ hfound hd e⟩
  · intro hty hd
    exact ⟨_, decrypt_dest_absent _ _ _ _ _ _ _ _ _ _ _ hfound hty hd⟩

/-- C16 (witness): with buffer 1 bound but unavailable and a subsample list that
does not overflow, the call is rejected with cannot-handle. -/
theorem decrypt_invalid_source_witness :
    Registry.find [(1, none)] 1 = some none ∧
      ∃ message,
        decrypt (sampleHost 32) [(1, none)] true [] [] .AES_CTR ⟨0, 0⟩ [⟨100, 200⟩]
            ⟨1, 0, 300⟩ 0 ⟨.NATIVE_HANDLE, ⟨0, 0, 0⟩, 77⟩ =
          reject [(1, none)] .ERROR_DRM_CANNOT_HANDLE message :=
  ⟨by decide,
    (decrypt_invalid_source (sampleHost 32) [(1, none)] true [] [] .AES_CTR ⟨0, 0⟩ [⟨100, 200⟩]
      ⟨1, 0, 300⟩ 0 ⟨.NATIVE_HANDLE, ⟨0, 0, 0⟩, 77⟩ (Or.inl (by decide))).1 (by decide)⟩

/-- C17 (the code at the failing input): with buffer 1 bound to a 1024-byte
region, a well-formed destination descriptor with offset `2 ^ 64 - 16` and size
16 violates both conditions (`offset + size` is `2 ^ 64`, above 1024, and the
subsample total 17 exceeds 16), yet the call is rejected with BAD_VALUE, not
cannot-handle: the unchecked `uint64_t` sum wraps to 0 and passes the bounds
check, so the size check is the one that fails. -/
theorem decrypt_wrapped_destination_reports_bad_value :
    SharedBuffer.WellFormed ⟨1, 2 ^ 64 - 16, 16⟩ ∧
      ¬ (2 ^ 64 - 16 + 16 ≤ 1024) ∧
      16 < subSampleSum [⟨8, 9⟩] ∧
      decrypt (sampleHost 64) sampleRegistry false [] [] .AES_CTR ⟨0, 0⟩ [⟨8, 9⟩]
          ⟨1, 0, 17⟩ 0 ⟨.SHARED_MEMORY, ⟨1, 2 ^ 64 - 16, 16⟩, 0⟩ =
        reject sampleRegistry .BAD_VALUE "subsample sum too large" := by
  refine ⟨⟨by decide, by decide, by decide⟩, by decide, by decide, by decide⟩

/-- C18 (the code at the failing input): with buffer 1 bound to a 1024-byte
region at address 4096 on a 64-bit build, the call with the well-formed
destination descriptor of offset `2 ^ 64 - 16` and size 16 reaches the legacy
plugin with source pointer 4096 and destination pointer 4080. That is not the
base address plus `destination.offset`, which is `4096 + (2 ^ 64 - 16)`, and it
lies below the base of the region. -/
theorem decrypt_wrapped_destination_pointer :
    SharedBuffer.WellFormed ⟨1, 2 ^ 64 - 16, 16⟩ ∧
      Registry.find sampleRegistry 1 = some (some ⟨4096, 1024⟩) ∧
      (decrypt (sampleHost 64) sampleRegistry false [] [] .AES_CTR ⟨0, 0⟩ [⟨8, 8⟩]
        ⟨1, 0, 16⟩ 0 ⟨.SHARED_MEMORY, ⟨1, 2 ^ 64 - 16, 16⟩, 0⟩).engineCalls.map
          (fun args => (args.srcPtr, args.destPtr)) = [(4096, 4080)] ∧
      4080 ≠ 4096 + (2 ^ 64 - 16) ∧
      4080 < 4096 := by
  refine ⟨⟨by decide, by decide, by decide⟩, by decide, by decide, by decide, by decide⟩

/-- C19: when the legacy plugin is called with `args`, its subsample array has
the length of the caller's list, the count passed is that length, at every
index the element has the clear and encrypted byte counts of the caller's
subsample at the same index, and the pattern has the caller's encryptBlocks and
skipBlocks. -/
theorem decrypt_engine_subsamples (host : Host) (registry : Registry) (secure : Bool)
    (keyId iv : List Nat) (mode : Mode) (pattern : Pattern) (subSamples : List SubSample)
    (source : SharedBuffer) (offset : Nat) (destination : DestinationBuffer)
    (args : LegacyDecryptArgs)
    (hcall : (decrypt host registry secure keyId iv mode pattern subSamples source offset
      destination).engineCalls = [args]) :
    args.subSamples.length = subSamples.length ∧
      args.numSubSamples = subSamples.length ∧
      (∀ (i : Nat) (s : SubSample), subSamples[i]? = some s →
        args.subSamples[i]? = some ⟨s.numBytesOfClearData, s.numBytesOfEncryptedData⟩) ∧
      args.pattern.mEncryptBlocks = pattern.encryptBlocks ∧
      args.pattern.mSkipBlocks = pattern.skipBlocks := by
  have hinv : (decrypt host registry secure keyId iv mode pattern subSamples source offset
      destination).engineInvoked := by
    simp [Outcome.engineInvoked, hcall]
  obtain ⟨sourceBase, destPtr, _, _, e⟩ :=
    decrypt_engineInvoked_args host registry secure keyId iv mode pattern subSamples source
      offset destination hinv
  rw [e, dispatch_engineCalls] at hcall
  have hargs := List.head_eq_of_cons_eq hcall
  subst hargs
  refine ⟨by simp [legacyCopy], rfl, ?_, rfl, rfl⟩
  intro i s hi
  simp [legacyCopy, List.getElem?_map, hi]

/-- C19 (witness): a call with two subsamples passes both, in order, to the
legacy plugin. -/
theorem decrypt_engine_subsamples_witness :
    (decrypt (sampleHost 64) sampleRegistry false [] [] .AES_CTR ⟨1, 9⟩
        [⟨10, 20⟩, ⟨30, 40⟩] ⟨1, 0, 100⟩ 0 ⟨.SHARED_MEMORY, ⟨1, 0, 100⟩, 0⟩).engineCalls =
        [⟨false, [], [], .kMode_AES_CTR, ⟨1, 9⟩, 4096, [⟨10, 20⟩, ⟨30, 40⟩], 2, 4096⟩] ∧
      ([⟨10, 20⟩, ⟨30, 40⟩] : List LegacySubSample).length =
        ([⟨10, 20⟩, ⟨30, 40⟩] : List SubSample).length ∧
      ([⟨10, 20⟩, ⟨30, 40⟩] : List LegacySubSample)[1]? = some ⟨30, 40⟩ :=
  ⟨by decide,
    (decrypt_engine_subsamples (sampleHost 64) sampleRegistry false [] [] .AES_CTR ⟨1, 9⟩
      [⟨10, 20⟩, ⟨30, 40⟩] ⟨1, 0, 100⟩ 0 ⟨.SHARED_MEMORY, ⟨1, 0, 100⟩, 0⟩
      ⟨false, [], [], .kMode_AES_CTR, ⟨1, 9⟩, 4096, [⟨10, 20⟩, ⟨30, 40⟩], 2, 4096⟩
      (by decide)).1,
    (decrypt_engine_subsamples (sampleHost 64) sampleRegistry false [] [] .AES_CTR ⟨1, 9⟩
      [⟨10, 20⟩, ⟨30, 40⟩] ⟨1, 0, 100⟩ 0 ⟨.SHARED_MEMORY, ⟨1, 0, 100⟩, 0⟩
      ⟨false, [], [], .kMode_AES_CTR, ⟨1, 9⟩, 4096, [⟨10, 20⟩, ⟨30, 40⟩], 2, 4096⟩
      (by decide)).2.2.1 1 ⟨30, 40⟩ rfl⟩

/-- C20: bytesWritten is non-zero only on success of the legacy plugin. If the
legacy plugin was not called, or was called and returned a negative code, the
reported bytesWritten is 0; hence a non-zero bytesWritten implies that the
legacy plugin was called and returned a positive count. -/
theorem decrypt_bytesWritten_nonzero_only_on_success (host : Host) (registry : Registry)
    (secure : Bool) (keyId iv : List Nat) (mode : Mode) (pattern : Pattern)
    (subSamples : List SubSample) (source : SharedBuffer) (offset : Nat)
    (destination : DestinationBuffer) :
    ((decrypt host registry secure keyId iv mode pattern subSamples source offset
          destination).engineCalls = [] →
        ∀ callback ∈ (decrypt host registry secure keyId iv mode pattern subSamples source
          offset destination).callbacks, callback.bytesWritten = 0) ∧
      (∀ args,
        (decrypt host registry secure keyId iv mode pattern subSamples source offset
          destination).engineCalls = [args] →
        (host.legacyDecrypt args).1 < 0 →
        ∀ callback ∈ (decrypt host registry secure keyId iv mode pattern subSamples source
          offset destination).callbacks, callback.bytesWritten = 0) ∧
      (∀ callback ∈ (decrypt host registry secure keyId iv mode pattern subSamples source
          offset destination).callbacks,
        callback.bytesWritten ≠ 0 →
        ∃ args,
          (decrypt host registry secure keyId iv mode pattern subSamples source offset
            destination).engineCalls = [args] ∧
          0 < (host.legacyDecrypt args).1) := by
  have hrej : ∀ status message, ∀ callback ∈ (reject registry status message).callbacks,
      callback.bytesWritten = 0 := by
    intro status message callback hmem
    simp only [reject, List.mem_singleton] at hmem
    rw [hmem]
  rcases decrypt_shape host registry secure keyId iv mode pattern subSamples source offset
    destination with ⟨m, e⟩ | ⟨m, e⟩ | ⟨args0, e⟩
  · rw [e]
    exact ⟨fun _ => hrej _ _, fun _ _ _ => hrej _ _,
      fun callback hmem hne => absurd (hrej _ _ callback hmem) hne⟩
  · rw [e]
    exact ⟨fun _ => hrej _ _, fun _ _ _ => hrej _ _,
      fun callback hmem hne => absurd (hrej _ _ callback hmem) hne⟩
  · rw [e]
    refine ⟨?_, ?_, ?_⟩
    · intro hnil
      rw [dispatch_engineCalls] at hnil
      cases hnil
    · intro args hcall hneg callback hmem
      rw [dispatch_engineCalls] at hcall
      have hargs := List.head_eq_of_cons_eq hcall
      subst hargs
      have hn : ¬ 0 ≤ (host.legacyDecrypt args0).1 := by omega
      simp only [dispatch, ge_iff_le, hn, if_false, List.mem_singleton] at hmem
      rw [hmem]
    · intro callback hmem hne
      refine ⟨args0, dispatch_engineCalls _ _ _, ?_⟩
      by_cases h0 : 0 ≤ (host.legacyDecrypt args0).1
      · simp only [dispatch, ge_iff_le, h0, if_true, List.mem_singleton] at hmem
        rw [hmem] at hne
        have hz : (host.legacyDecrypt args0).1 ≠ 0 := by
          intro hzero
          apply hne
          simp [hzero, toUInt32]
        omega
      · simp only [dispatch, ge_iff_le, h0, if_false, List.mem_singleton] at hmem
        rw [hmem] at hne
        exact absurd rfl hne

/-- C20 (witness): scenario A reports bytesWritten 300, and the legacy plugin was
called and returned the positive count 300. -/
theorem decrypt_bytesWritten_nonzero_only_on_success_witness :
    ∃ args,
      (decrypt (sampleHost 64) sampleRegistry false [] [] .AES_CTR ⟨0, 0⟩ [⟨100, 200⟩]
        ⟨1, 0, 300⟩ 0 ⟨.SHARED_MEMORY, ⟨1, 0, 300⟩, 0⟩).engineCalls = [args] ∧
      0 < ((sampleHost 64).legacyDecrypt args).1 :=
  (decrypt_bytesWritten_nonzero_only_on_success (sampleHost 64) sampleRegistry false [] []
    .AES_CTR ⟨0, 0⟩ [⟨100, 200⟩] ⟨1, 0, 300⟩ 0 ⟨.SHARED_MEMORY, ⟨1, 0, 300⟩, 0⟩).2.2
    ⟨.OK, 300, ""⟩ (by decide) (by decide)

end CryptoPlugin
